import Mathlib

/-!
Verification of the covid_data aggregation pipeline (src/main.rs).

The program reads a flat list of per-county covid records, groups them by a
date key and a state-namespaced county key while accumulating confirmed and
death counts, derives per-state aggregate nodes with edges to their county
nodes, and emits one graph per date.

The shallow embedding below mirrors the Rust source:
  * Rust `i64` values are modelled as `Int`.  Where a claim is about
    equalities of accumulated values, unbounded `Int` addition is faithful:
    the equalities transfer through the mod-2^64 quotient.  Where a claim
    is about order or sign of accumulators (C8), the `i64` `+=` of the two
    accumulation closures is modelled faithfully by two's-complement
    wrapping (`wrap64`, and the `W`-suffixed variants of the fold and the
    merge below), which is Rust's release-build behaviour; debug builds
    panic at the same boundary, so past it the claim fails either way.
  * `HashMap` accumulators mutated via `entry(..).or_insert_with(..)` are
    modelled as association lists with first-occurrence lookup; a fresh key
    is appended at the end.  The `HashMap`'s (seed-randomised) iteration
    order is modelled by the order of the association list, so theorems
    about iteration-order independence quantify over list orderings.
  * `BTreeMap<&str, i64>` / `BTreeSet<String>` are modelled as key-sorted
    association lists / sorted duplicate-free lists under byte-lexicographic
    string order (`strLt` below, which mirrors `str`'s `Ord`).
  * The fallible lookups (`.expect("state must be there")` and
    `.get_mut(m).unwrap()` in `Node::add_metric`) are modelled by
    `Option`-returning variants (`addMetricOpt`, `buildStepOpt`,
    `buildGraphOpt`); total variants are used elsewhere and proved equal.
-/

namespace CovidData

/-- Lexicographic comparison of char lists; models byte-lexicographic `Ord`
on Rust strings (identical on the ASCII data appearing here). -/
def charListLt : List Char → List Char → Bool
  | [], [] => false
  | [], _ :: _ => true
  | _ :: _, [] => false
  | c :: cs, d :: ds => if c < d then true else if d < c then false else charListLt cs ds

/-- String order used by `BTreeMap`/`BTreeSet` keys in the source. -/
def strLt (a b : String) : Bool := charListLt a.data b.data

/-- `CovidCountyRawDataEntry` from the source: one raw record of the input
JSON, with `date` in epoch milliseconds and `entry_type` the metric kind. -/
structure CovidCountyRawDataEntry where
  date : Int
  county : String
  state : String
  values : Int
  entry_type : String
  deriving DecidableEq

/-- `CountyEntry` from the source: the per-county accumulator. -/
structure CountyEntry where
  name : String
  state : String
  confirmed : Int
  deaths : Int
  deriving DecidableEq

/-- `Node` from the source.  `metrics` models `BTreeMap<&'static str, i64>`
(key-sorted association list), `edges_directed` models `BTreeSet<String>`
(sorted duplicate-free list). -/
structure Node where
  name : String
  metrics : List (String × Int)
  edges_directed : List String
  extra_fields : List (String × String)
  deriving DecidableEq

/-- `Graph` from the source.  The `timestamp` is kept as the epoch-second
date key; the source renders it with `to_rfc3339`, an injective formatting
of this value. -/
structure Graph where
  timestamp : Int
  nodes : List Node
  deriving DecidableEq

/-- First-occurrence lookup in an association list (models `HashMap` get). -/
def alistFind {κ α : Type} [DecidableEq κ] : List (κ × α) → κ → Option α
  | [], _ => none
  | q :: rest, k => if q.1 = k then some q.2 else alistFind rest k

/-- Apply `f` to the value at the first occurrence of key `k`. -/
def alistMapAt {κ α : Type} [DecidableEq κ] : List (κ × α) → κ → (α → α) → List (κ × α)
  | [], _, _ => []
  | q :: rest, k, f => if q.1 = k then (q.1, f q.2) :: rest else q :: alistMapAt rest k f

/-- The source's `entry(k).or_insert_with(dflt)` followed by a mutation `f`:
create the entry with the default value if absent, then mutate it. -/
def upsert {κ α : Type} [DecidableEq κ] (l : List (κ × α)) (k : κ) (dflt : α) (f : α → α) :
    List (κ × α) :=
  match alistFind l k with
  | some _ => alistMapAt l k f
  | none => l ++ [(k, f dflt)]

/-- Date key of a record: `Utc.timestamp(entry.date / 1000, 0)` in the
source — the millisecond timestamp divided by 1000 with Rust `i64`
truncating division, i.e. epoch seconds. -/
def dateKey (e : CovidCountyRawDataEntry) : Int := e.date.tdiv 1000

/-- `format!("{} - {}", &state, &name)` from the source fold closure. -/
def countyKey (state name : String) : String := state ++ " - " ++ name

/-- County key of a record. -/
def ckey (e : CovidCountyRawDataEntry) : String := countyKey e.state e.county

/-- The `or_insert_with` initializer in the fold closure: zero accumulators. -/
def freshCounty (e : CovidCountyRawDataEntry) : CountyEntry :=
  { name := e.county, state := e.state, confirmed := 0, deaths := 0 }

/-- The `match entry.entry_type.as_str()` accumulation in the fold closure. -/
def applyKind (e : CovidCountyRawDataEntry) (c : CountyEntry) : CountyEntry :=
  match e.entry_type with
  | "Confirmed" => { c with confirmed := c.confirmed + e.values }
  | "Deaths" => { c with deaths := c.deaths + e.values }
  | _ => c

/-- The per-date accumulator map (`HashMap<String, CountyEntry>`). -/
abbrev DateBucket := List (String × CountyEntry)

/-- The top-level accumulator map (`HashMap<Date, HashMap<..>>`). -/
abbrev Grouped := List (Int × DateBucket)

/-- One step of the source's parallel fold closure. -/
def processEntry (result : Grouped) (e : CovidCountyRawDataEntry) : Grouped :=
  upsert result (dateKey e) [] (fun b => upsert b (ckey e) (freshCounty e) (applyKind e))

/-- Folding one shard of the input from the empty map, as rayon's `fold`
does with identity `HashMap::new`. -/
def foldShard (shard : List CovidCountyRawDataEntry) : Grouped :=
  shard.foldl processEntry []

/-- Inner loop of the source's reduce closure: add one county entry of the
`from` map into the `into` bucket. -/
def mergeCounty (into : DateBucket) (q : String × CountyEntry) : DateBucket :=
  upsert into q.1 { name := q.2.name, state := q.2.state, confirmed := 0, deaths := 0 }
    (fun c =>
      { c with
          confirmed := c.confirmed + q.2.confirmed,
          deaths := c.deaths + q.2.deaths })

/-- Merge all county entries of bucket `fromB` into bucket `into`. -/
def mergeBuckets (into fromB : DateBucket) : DateBucket := fromB.foldl mergeCounty into

/-- The source's reduce closure `|from, mut into| ...`: merge the partial
map `fromG` into the partial map `into`. -/
def mergeGrouped (fromG into : Grouped) : Grouped :=
  fromG.foldl (fun acc p => upsert acc p.1 [] (fun b => mergeBuckets b p.2)) into

/-- Combine a list of partial per-shard maps with the reduce closure. -/
def combinePartials (gs : List Grouped) : Grouped :=
  gs.foldl (fun into fromG => mergeGrouped fromG into) []

/-- `BTreeSet::insert`: sorted insertion, no duplicates. -/
def setInsert : List String → String → List String
  | [], k => [k]
  | x :: rest, k =>
    if strLt k x then k :: x :: rest
    else if k = x then x :: rest
    else x :: setInsert rest k

/-- `BTreeMap::insert` on a key-sorted association list. -/
def mapInsert : List (String × Int) → String → Int → List (String × Int)
  | [], k, v => [(k, v)]
  | q :: rest, k, v =>
    if strLt k q.1 then (k, v) :: q :: rest
    else if k = q.1 then (k, v) :: rest
    else q :: mapInsert rest k v

/-- `Node::add_metric` with the `get_mut(m).unwrap()` made explicit: the
`none` branch is the unreachable unwrap failure. -/
def addMetricOpt (n : Node) (m : String) (v : Int) : Option Node :=
  let ms := if (alistFind n.metrics m).isSome then n.metrics else mapInsert n.metrics m 0
  match alistFind ms m with
  | some old => some { n with metrics := alistMapAt ms m (fun _ => old + v) }
  | none => none

/-- Total counterpart of `addMetricOpt`; `addMetricOpt_eq` proves the
unwrap never fails and the two agree. -/
def addMetric (n : Node) (m : String) (v : Int) : Node :=
  let ms := if (alistFind n.metrics m).isSome then n.metrics else mapInsert n.metrics m 0
  match alistFind ms m with
  | some old => { n with metrics := alistMapAt ms m (fun _ => old + v) }
  | none => n

/-- The county `Node` pushed for one bucket entry.  The source collects
`vec![("confirmed", ..), ("deaths", ..)]` into a `BTreeMap`; the resulting
sorted list is exactly this one since "confirmed" sorts before "deaths". -/
def countyNodeOf (p : String × CountyEntry) : Node :=
  { name := p.1,
    metrics := [("confirmed", p.2.confirmed), ("deaths", p.2.deaths)],
    edges_directed := [],
    extra_fields := [("display_name", p.2.name)] }

/-- The freshly inserted state node (`Node { name, ..Default::default() }`). -/
def emptyStateNode (s : String) : Node :=
  { name := s, metrics := [], edges_directed := [], extra_fields := [] }

/-- The mutation applied to the state node for one county entry:
`add_metric("confirmed", ..)`, `add_metric("deaths", ..)`, then
`edges_directed.insert(key)`. -/
def updateStateNode (st : Node) (key : String) (c : CountyEntry) : Node :=
  let st1 := addMetric st "confirmed" c.confirmed
  let st2 := addMetric st1 "deaths" c.deaths
  { st2 with edges_directed := setInsert st2.edges_directed key }

/-- One iteration of the source's per-date loop over county entries:
`acc.1` is the `states` map, `acc.2` the `all_nodes` vector.  The `none`
branch is the `.expect("state must be there")` failure, kept total here;
`buildStepOpt_eq` proves it unreachable. -/
def buildStep (acc : List (String × Node) × List Node) (p : String × CountyEntry) :
    List (String × Node) × List Node :=
  let states := if (alistFind acc.1 p.2.state).isSome then acc.1
    else acc.1 ++ [(p.2.state, emptyStateNode p.2.state)]
  match alistFind states p.2.state with
  | some st =>
    (alistMapAt states p.2.state (fun _ => updateStateNode st p.1 p.2),
      acc.2 ++ [countyNodeOf p])
  | none => (states, acc.2 ++ [countyNodeOf p])

/-- `buildStep` with both fallible lookups explicit: the state lookup
`.expect(..)` and the unwrap inside `Node::add_metric`. -/
def buildStepOpt (acc : List (String × Node) × List Node) (p : String × CountyEntry) :
    Option (List (String × Node) × List Node) :=
  let states := if (alistFind acc.1 p.2.state).isSome then acc.1
    else acc.1 ++ [(p.2.state, emptyStateNode p.2.state)]
  match alistFind states p.2.state with
  | some st =>
    match addMetricOpt st "confirmed" p.2.confirmed with
    | some st1 =>
      match addMetricOpt st1 "deaths" p.2.deaths with
      | some st2 =>
        some (alistMapAt states p.2.state
            (fun _ => { st2 with edges_directed := setInsert st2.edges_directed p.1 }),
          acc.2 ++ [countyNodeOf p])
      | none => none
    | none => none
  | none => none

/-- The state-map component of the per-date loop. -/
def stateStep (states : List (String × Node)) (p : String × CountyEntry) :
    List (String × Node) :=
  (buildStep (states, []) p).1

/-- The `states` map accumulated over a whole bucket. -/
def stateAcc (b : DateBucket) : List (String × Node) := b.foldl stateStep []

/-- The per-date graph construction from the source's "add state nodes"
stage: county nodes in bucket order, then the accumulated state nodes. -/
def buildGraph (date : Int) (b : DateBucket) : Graph :=
  let res := b.foldl buildStep ([], [])
  { timestamp := date, nodes := res.2 ++ res.1.map (fun q => q.2) }

/-- `buildGraph` with the fallible lookups explicit. -/
def buildGraphOpt (date : Int) (b : DateBucket) : Option Graph :=
  match b.foldlM buildStepOpt ([], []) with
  | some res => some { timestamp := date, nodes := res.2 ++ res.1.map (fun q => q.2) }
  | none => none

/-- End-to-end pipeline on one shard: group, then build one graph per date. -/
def graphsOf (l : List CovidCountyRawDataEntry) : List Graph :=
  (foldShard l).map (fun p => buildGraph p.1 p.2)

/-- Confirmed count stored in a bucket for a county key (0 if absent). -/
def bucketConf (b : DateBucket) (k : String) : Int :=
  match alistFind b k with
  | some c => c.confirmed
  | none => 0

/-- Death count stored in a bucket for a county key (0 if absent). -/
def bucketDeaths (b : DateBucket) (k : String) : Int :=
  match alistFind b k with
  | some c => c.deaths
  | none => 0

/-- Confirmed count stored in a grouped map at a date and county key. -/
def confirmedAt (g : Grouped) (d : Int) (k : String) : Int :=
  match alistFind g d with
  | some b => bucketConf b k
  | none => 0

/-- Death count stored in a grouped map at a date and county key. -/
def deathsAt (g : Grouped) (d : Int) (k : String) : Int :=
  match alistFind g d with
  | some b => bucketDeaths b k
  | none => 0

/-- The grouped map has an accumulator for county key `k` at date `d`. -/
def Contains (g : Grouped) (d : Int) (k : String) : Prop :=
  k ∈ ((alistFind g d).getD []).map (fun q => q.1)

instance instDecidableContains (g : Grouped) (d : Int) (k : String) :
    Decidable (Contains g d k) := by
  unfold Contains
  infer_instance

/-- Contribution of one record to the confirmed accumulator at `(d, k)`. -/
def indConfirmed (e : CovidCountyRawDataEntry) (d : Int) (k : String) : Int :=
  if dateKey e = d ∧ ckey e = k ∧ e.entry_type = "Confirmed" then e.values else 0

/-- Contribution of one record to the deaths accumulator at `(d, k)`. -/
def indDeaths (e : CovidCountyRawDataEntry) (d : Int) (k : String) : Int :=
  if dateKey e = d ∧ ckey e = k ∧ e.entry_type = "Deaths" then e.values else 0

/-- Specification sum: total confirmed contribution of a record list. -/
def specConf (l : List CovidCountyRawDataEntry) (d : Int) (k : String) : Int :=
  (l.map fun e => indConfirmed e d k).sum

/-- Specification sum: total deaths contribution of a record list. -/
def specDeaths (l : List CovidCountyRawDataEntry) (d : Int) (k : String) : Int :=
  (l.map fun e => indDeaths e d k).sum

/-- Well-formedness of a grouped map: date keys are duplicate-free and so
are the county keys of every bucket.  Every map the program builds is
well-formed (`foldShard_wf`, `mergeGrouped_wf`). -/
def WFg (g : Grouped) : Prop :=
  (g.map (fun p => p.1)).Nodup ∧ ∀ p ∈ g, (p.2.map (fun q => q.1)).Nodup

instance instDecidableWFg (g : Grouped) : Decidable (WFg g) := by
  unfold WFg
  infer_instance

/-- All accumulators stored in a grouped map are non-negative. -/
def NonnegG (g : Grouped) : Prop :=
  ∀ p ∈ g, ∀ q ∈ p.2, 0 ≤ q.2.confirmed ∧ 0 ≤ q.2.deaths

instance instDecidableNonnegG (g : Grouped) : Decidable (NonnegG g) := by
  unfold NonnegG
  infer_instance

/-- Sum of the confirmed counts of the bucket entries belonging to state
`s` — the value the spec requires of a state node's confirmed metric. -/
def confSumState (b : DateBucket) (s : String) : Int :=
  (b.map fun p => if p.2.state = s then p.2.confirmed else 0).sum

/-- Sum of the death counts of the bucket entries belonging to state `s`. -/
def deathSumState (b : DateBucket) (s : String) : Int :=
  (b.map fun p => if p.2.state = s then p.2.deaths else 0).sum

/-- The sorted set of county keys of the bucket entries of state `s`. -/
def edgeSetOf (b : DateBucket) (s : String) : List String :=
  b.foldl (fun acc p => if p.2.state = s then setInsert acc p.1 else acc) []

/-- Closed form of the state node accumulated for state `s` over bucket
`b` (meaningful when some entry of `b` has state `s`). -/
def stateNodeOf (b : DateBucket) (s : String) : Node :=
  { name := s,
    metrics := [("confirmed", confSumState b s), ("deaths", deathSumState b s)],
    edges_directed := edgeSetOf b s,
    extra_fields := [] }

/-- Some entry of the bucket belongs to state `s`. -/
def hasState (b : DateBucket) (s : String) : Prop := ∃ p ∈ b, p.2.state = s

instance instDecidableHasState (b : DateBucket) (s : String) :
    Decidable (hasState b s) := by
  unfold hasState
  infer_instance

/-- First occurrences of the states of a bucket, in bucket order — the
insertion order of the `states` map in the per-date loop. -/
def firstStates (b : DateBucket) : List String :=
  b.foldl (fun acc p => if p.2.state ∈ acc then acc else acc ++ [p.2.state]) []

/-- UTC calendar-day index of an epoch-millisecond timestamp (floor
division by the number of milliseconds in a day).  This formalises the
spec's phrase "the same UTC calendar day"; it is a specification-side
definition, not part of the program. -/
def specUtcDay (ms : Int) : Int := ms.fdiv 86400000

/-- Two's-complement wrap of a mathematical integer into the `i64` range
[-2^63, 2^63): the value a Rust release-build `i64` addition stores on
overflow (a debug build panics at the same point). -/
def wrap64 (x : Int) : Int := (x + 2 ^ 63) % 2 ^ 64 - 2 ^ 63

/-- `x` lies in the `i64` range, so an `i64` addition producing `x` does
not overflow. -/
abbrev InI64 (x : Int) : Prop := -(2 ^ 63) ≤ x ∧ x < 2 ^ 63

/-- `applyKind` under `i64` semantics: the `+=` wraps on overflow. -/
def applyKindW (e : CovidCountyRawDataEntry) (c : CountyEntry) : CountyEntry :=
  match e.entry_type with
  | "Confirmed" => { c with confirmed := wrap64 (c.confirmed + e.values) }
  | "Deaths" => { c with deaths := wrap64 (c.deaths + e.values) }
  | _ => c

/-- The fold closure step under `i64` semantics. -/
def processEntryW (result : Grouped) (e : CovidCountyRawDataEntry) : Grouped :=
  upsert result (dateKey e) [] (fun b => upsert b (ckey e) (freshCounty e) (applyKindW e))

/-- Folding one shard under `i64` semantics. -/
def foldShardW (shard : List CovidCountyRawDataEntry) : Grouped :=
  shard.foldl processEntryW []

/-- The reduce closure's inner `+=` under `i64` semantics. -/
def mergeCountyW (into : DateBucket) (q : String × CountyEntry) : DateBucket :=
  upsert into q.1 { name := q.2.name, state := q.2.state, confirmed := 0, deaths := 0 }
    (fun c =>
      { c with
          confirmed := wrap64 (c.confirmed + q.2.confirmed),
          deaths := wrap64 (c.deaths + q.2.deaths) })

/-- Merge one bucket under `i64` semantics. -/
def mergeBucketsW (into fromB : DateBucket) : DateBucket := fromB.foldl mergeCountyW into

/-- The reduce closure under `i64` semantics. -/
def mergeGroupedW (fromG into : Grouped) : Grouped :=
  fromG.foldl (fun acc p => upsert acc p.1 [] (fun b => mergeBucketsW b p.2)) into

section AlistLemmas

variable {κ α : Type} [DecidableEq κ]

theorem alistFind_append_some {l l' : List (κ × α)} {k : κ} {v : α}
    (h : alistFind l k = some v) : alistFind (l ++ l') k = some v := by
  induction l with
  | nil => simp [alistFind] at h
  | cons q rest ih =>
    by_cases hq : q.1 = k
    · simpa [alistFind, hq] using h
    · rw [alistFind, if_neg hq] at h
      simpa [alistFind, hq] using ih h

theorem alistFind_append_none {l : List (κ × α)} {k : κ}
    (h : alistFind l k = none) (l' : List (κ × α)) :
    alistFind (l ++ l') k = alistFind l' k := by
  induction l with
  | nil => simp
  | cons q rest ih =>
    by_cases hq : q.1 = k
    · simp [alistFind, hq] at h
    · rw [alistFind, if_neg hq] at h
      simpa [alistFind, hq] using ih h

theorem alistFind_eq_none_iff {l : List (κ × α)} {k : κ} :
    alistFind l k = none ↔ k ∉ l.map (fun q => q.1) := by
  induction l with
  | nil => simp [alistFind]
  | cons q rest ih =>
    by_cases hq : q.1 = k
    · simp [alistFind, hq]
    · simp [alistFind, hq, ih, Ne.symm hq]

theorem alistFind_mem {l : List (κ × α)} {k : κ} {v : α}
    (h : alistFind l k = some v) : (k, v) ∈ l := by
  induction l with
  | nil => simp [alistFind] at h
  | cons q rest ih =>
    by_cases hq : q.1 = k
    · rw [alistFind, if_pos hq] at h
      injection h with h2
      subst hq
      subst h2
      exact List.mem_cons_self _ _
    · rw [alistFind, if_neg hq] at h
      exact List.mem_cons_of_mem _ (ih h)

theorem alistFind_isSome_iff {l : List (κ × α)} {k : κ} :
    (alistFind l k).isSome ↔ k ∈ l.map (fun q => q.1) := by
  constructor
  · intro h
    rcases Option.isSome_iff_exists.mp h with ⟨v, hv⟩
    exact List.mem_map.mpr ⟨(k, v), alistFind_mem hv, rfl⟩
  · intro h
    cases hf : alistFind l k with
    | some v => simp
    | none => exact absurd h (alistFind_eq_none_iff.mp hf)

theorem alistMapAt_keys (l : List (κ × α)) (k : κ) (f : α → α) :
    (alistMapAt l k f).map (fun q => q.1) = l.map (fun q => q.1) := by
  induction l with
  | nil => rfl
  | cons q rest ih =>
    by_cases hq : q.1 = k
    · simp [alistMapAt, hq]
    · simp [alistMapAt, hq, ih]

theorem alistFind_mapAt_self {l : List (κ × α)} {k : κ} {v : α} (f : α → α)
    (h : alistFind l k = some v) : alistFind (alistMapAt l k f) k = some (f v) := by
  induction l with
  | nil => simp [alistFind] at h
  | cons q rest ih =>
    by_cases hq : q.1 = k
    · rw [alistFind, if_pos hq] at h
      cases h
      simp [alistMapAt, alistFind, hq]
    · rw [alistFind, if_neg hq] at h
      simp [alistMapAt, alistFind, hq, ih h]

theorem alistFind_mapAt_ne {k' k : κ} (l : List (κ × α)) (f : α → α) (h : k' ≠ k) :
    alistFind (alistMapAt l k f) k' = alistFind l k' := by
  induction l with
  | nil => rfl
  | cons q rest ih =>
    by_cases hq : q.1 = k
    · subst hq
      simp [alistMapAt, alistFind, Ne.symm h]
    · by_cases hq' : q.1 = k'
      · simp [alistMapAt, alistFind, hq, hq', h]
      · simp [alistMapAt, alistFind, hq, hq', ih]

theorem alistMapAt_mem {l : List (κ × α)} {k : κ} {f : α → α} {p : κ × α}
    (h : p ∈ alistMapAt l k f) :
    p ∈ l ∨ ∃ v, alistFind l k = some v ∧ p = (k, f v) := by
  induction l with
  | nil => simp [alistMapAt] at h
  | cons q rest ih =>
    by_cases hq : q.1 = k
    · rw [alistMapAt, if_pos hq] at h
      rcases List.mem_cons.mp h with h1 | h1
      · right
        exact ⟨q.2, by simp [alistFind, hq], by simpa [hq] using h1⟩
      · exact Or.inl (List.mem_cons_of_mem _ h1)
    · rw [alistMapAt, if_neg hq] at h
      rcases List.mem_cons.mp h with h1 | h1
      · exact Or.inl (h1 ▸ List.mem_cons_self _ _)
      · rcases ih h1 with h2 | ⟨v, hv, hp⟩
        · exact Or.inl (List.mem_cons_of_mem _ h2)
        · exact Or.inr ⟨v, by simp [alistFind, hq, hv], hp⟩

theorem alistFind_upsert_self (l : List (κ × α)) (k : κ) (dflt : α) (f : α → α) :
    alistFind (upsert l k dflt f) k = some (f ((alistFind l k).getD dflt)) := by
  unfold upsert
  cases hf : alistFind l k with
  | some v => simpa using alistFind_mapAt_self f hf
  | none => simp [alistFind_append_none hf, alistFind]

theorem alistFind_upsert_ne {k' k : κ} (l : List (κ × α)) (dflt : α) (f : α → α)
    (h : k' ≠ k) : alistFind (upsert l k dflt f) k' = alistFind l k' := by
  unfold upsert
  cases hf : alistFind l k with
  | some v => exact alistFind_mapAt_ne l f h
  | none =>
    cases hf' : alistFind l k' with
    | some w => exact alistFind_append_some hf'
    | none => simp [alistFind_append_none hf', alistFind, Ne.symm h]

theorem upsert_keys (l : List (κ × α)) (k : κ) (dflt : α) (f : α → α) :
    (upsert l k dflt f).map (fun q => q.1) =
      if (alistFind l k).isSome then l.map (fun q => q.1)
      else l.map (fun q => q.1) ++ [k] := by
  unfold upsert
  cases hf : alistFind l k with
  | some v => simp [alistMapAt_keys]
  | none => simp

theorem upsert_keys_nodup {l : List (κ × α)} (k : κ) (dflt : α) (f : α → α)
    (h : (l.map (fun q => q.1)).Nodup) :
    ((upsert l k dflt f).map (fun q => q.1)).Nodup := by
  rw [upsert_keys]
  cases hf : alistFind l k with
  | some v => simpa using h
  | none =>
    have hk : k ∉ l.map (fun q => q.1) := alistFind_eq_none_iff.mp hf
    simp only [Option.isSome_none, Bool.false_eq_true, if_false]
    refine List.Nodup.append h (List.nodup_singleton k) ?_
    intro a ha hb
    rw [List.mem_singleton] at hb
    subst hb
    exact hk ha

theorem upsert_mem {l : List (κ × α)} {k : κ} {dflt : α} {f : α → α} {p : κ × α}
    (h : p ∈ upsert l k dflt f) :
    p ∈ l ∨ (∃ v, alistFind l k = some v ∧ p = (k, f v)) ∨
      (alistFind l k = none ∧ p = (k, f dflt)) := by
  unfold upsert at h
  cases hf : alistFind l k with
  | some v =>
    rw [hf] at h
    rcases alistMapAt_mem h with h1 | ⟨w, hw, hp⟩
    · exact Or.inl h1
    · exact Or.inr (Or.inl ⟨w, hf.symm.trans hw, hp⟩)
  | none =>
    rw [hf] at h
    rcases List.mem_append.mp h with h1 | h1
    · exact Or.inl h1
    · exact Or.inr (Or.inr ⟨rfl, by simpa using h1⟩)

end AlistLemmas

section AccumulationLemmas

theorem applyKind_confirmed (e : CovidCountyRawDataEntry) (c : CountyEntry) :
    (applyKind e c).confirmed
      = c.confirmed + (if e.entry_type = "Confirmed" then e.values else 0) := by
  unfold applyKind
  split
  · simp_all
  · simp_all
  · simp_all

theorem applyKind_deaths (e : CovidCountyRawDataEntry) (c : CountyEntry) :
    (applyKind e c).deaths
      = c.deaths + (if e.entry_type = "Deaths" then e.values else 0) := by
  unfold applyKind
  split
  · simp_all
  · simp_all
  · simp_all

theorem bucketConf_bucketStep (b : DateBucket) (e : CovidCountyRawDataEntry) (k : String) :
    bucketConf (upsert b (ckey e) (freshCounty e) (applyKind e)) k
      = bucketConf b k + (if ckey e = k ∧ e.entry_type = "Confirmed" then e.values else 0) := by
  by_cases hk : ckey e = k
  · subst hk
    unfold bucketConf
    rw [alistFind_upsert_self]
    cases hf : alistFind b (ckey e) with
    | some c =>
      simp only [Option.getD_some, applyKind_confirmed]
      by_cases ht : e.entry_type = "Confirmed" <;> simp [ht]
    | none =>
      simp only [Option.getD_none, applyKind_confirmed, freshCounty]
      by_cases ht : e.entry_type = "Confirmed" <;> simp [ht]
  · unfold bucketConf
    rw [alistFind_upsert_ne b (freshCounty e) (applyKind e) (fun h => hk h.symm)]
    simp [hk]

theorem bucketDeaths_bucketStep (b : DateBucket) (e : CovidCountyRawDataEntry) (k : String) :
    bucketDeaths (upsert b (ckey e) (freshCounty e) (applyKind e)) k
      = bucketDeaths b k + (if ckey e = k ∧ e.entry_type = "Deaths" then e.values else 0) := by
  by_cases hk : ckey e = k
  · subst hk
    unfold bucketDeaths
    rw [alistFind_upsert_self]
    cases hf : alistFind b (ckey e) with
    | some c =>
      simp only [Option.getD_some, applyKind_deaths]
      by_cases ht : e.entry_type = "Deaths" <;> simp [ht]
    | none =>
      simp only [Option.getD_none, applyKind_deaths, freshCounty]
      by_cases ht : e.entry_type = "Deaths" <;> simp [ht]
  · unfold bucketDeaths
    rw [alistFind_upsert_ne b (freshCounty e) (applyKind e) (fun h => hk h.symm)]
    simp [hk]

theorem confirmedAt_processEntry (g : Grouped) (e : CovidCountyRawDataEntry)
    (d : Int) (k : String) :
    confirmedAt (processEntry g e) d k = confirmedAt g d k + indConfirmed e d k := by
  unfold processEntry confirmedAt indConfirmed
  by_cases hd : dateKey e = d
  · subst hd
    rw [alistFind_upsert_self]
    cases hf : alistFind g (dateKey e) with
    | some b =>
      simp only [Option.getD_some]
      rw [bucketConf_bucketStep]
      simp
    | none =>
      simp only [Option.getD_none]
      rw [bucketConf_bucketStep]
      simp [bucketConf, alistFind]
  · rw [alistFind_upsert_ne g [] _ (fun h => hd h.symm)]
    simp [hd]

theorem deathsAt_processEntry (g : Grouped) (e : CovidCountyRawDataEntry)
    (d : Int) (k : String) :
    deathsAt (processEntry g e) d k = deathsAt g d k + indDeaths e d k := by
  unfold processEntry deathsAt indDeaths
  by_cases hd : dateKey e = d
  · subst hd
    rw [alistFind_upsert_self]
    cases hf : alistFind g (dateKey e) with
    | some b =>
      simp only [Option.getD_some]
      rw [bucketDeaths_bucketStep]
      simp
    | none =>
      simp only [Option.getD_none]
      rw [bucketDeaths_bucketStep]
      simp [bucketDeaths, alistFind]
  · rw [alistFind_upsert_ne g [] _ (fun h => hd h.symm)]
    simp [hd]

theorem confirmedAt_foldl (l : List CovidCountyRawDataEntry) (g : Grouped)
    (d : Int) (k : String) :
    confirmedAt (l.foldl processEntry g) d k = confirmedAt g d k + specConf l d k := by
  induction l generalizing g with
  | nil => simp [specConf]
  | cons e rest ih =>
    rw [List.foldl_cons, ih, confirmedAt_processEntry]
    unfold specConf
    rw [List.map_cons, List.sum_cons]
    ring

theorem deathsAt_foldl (l : List CovidCountyRawDataEntry) (g : Grouped)
    (d : Int) (k : String) :
    deathsAt (l.foldl processEntry g) d k = deathsAt g d k + specDeaths l d k := by
  induction l generalizing g with
  | nil => simp [specDeaths]
  | cons e rest ih =>
    rw [List.foldl_cons, ih, deathsAt_processEntry]
    unfold specDeaths
    rw [List.map_cons, List.sum_cons]
    ring

theorem confirmedAt_foldShard (l : List CovidCountyRawDataEntry) (d : Int) (k : String) :
    confirmedAt (foldShard l) d k = specConf l d k := by
  have h := confirmedAt_foldl l [] d k
  simpa [foldShard, confirmedAt, alistFind] using h

theorem deathsAt_foldShard (l : List CovidCountyRawDataEntry) (d : Int) (k : String) :
    deathsAt (foldShard l) d k = specDeaths l d k := by
  have h := deathsAt_foldl l [] d k
  simpa [foldShard, deathsAt, alistFind] using h

end AccumulationLemmas

section MergeLemmas

theorem bucketConf_mergeCounty (b : DateBucket) (q : String × CountyEntry) (k : String) :
    bucketConf (mergeCounty b q) k
      = bucketConf b k + (if q.1 = k then q.2.confirmed else 0) := by
  unfold mergeCounty
  by_cases hk : q.1 = k
  · subst hk
    unfold bucketConf
    rw [alistFind_upsert_self]
    cases hf : alistFind b q.1 <;> simp
  · unfold bucketConf
    rw [alistFind_upsert_ne b _ _ (fun h => hk h.symm)]
    simp [hk]

theorem bucketDeaths_mergeCounty (b : DateBucket) (q : String × CountyEntry) (k : String) :
    bucketDeaths (mergeCounty b q) k
      = bucketDeaths b k + (if q.1 = k then q.2.deaths else 0) := by
  unfold mergeCounty
  by_cases hk : q.1 = k
  · subst hk
    unfold bucketDeaths
    rw [alistFind_upsert_self]
    cases hf : alistFind b q.1 <;> simp
  · unfold bucketDeaths
    rw [alistFind_upsert_ne b _ _ (fun h => hk h.symm)]
    simp [hk]

theorem bucketConf_mergeBuckets (into fromB : DateBucket) (k : String)
    (h : (fromB.map (fun q => q.1)).Nodup) :
    bucketConf (mergeBuckets into fromB) k = bucketConf into k + bucketConf fromB k := by
  induction fromB generalizing into with
  | nil => simp [mergeBuckets, bucketConf, alistFind]
  | cons q rest ih =>
    rw [List.map_cons, List.nodup_cons] at h
    unfold mergeBuckets at ih ⊢
    rw [List.foldl_cons, ih _ h.2, bucketConf_mergeCounty]
    by_cases hk : q.1 = k
    · subst hk
      have hr : alistFind rest q.1 = none := alistFind_eq_none_iff.mpr h.1
      simp [bucketConf, alistFind, hr]
    · simp [bucketConf, alistFind, hk]

theorem bucketDeaths_mergeBuckets (into fromB : DateBucket) (k : String)
    (h : (fromB.map (fun q => q.1)).Nodup) :
    bucketDeaths (mergeBuckets into fromB) k
      = bucketDeaths into k + bucketDeaths fromB k := by
  induction fromB generalizing into with
  | nil => simp [mergeBuckets, bucketDeaths, alistFind]
  | cons q rest ih =>
    rw [List.map_cons, List.nodup_cons] at h
    unfold mergeBuckets at ih ⊢
    rw [List.foldl_cons, ih _ h.2, bucketDeaths_mergeCounty]
    by_cases hk : q.1 = k
    · subst hk
      have hr : alistFind rest q.1 = none := alistFind_eq_none_iff.mpr h.1
      simp [bucketDeaths, alistFind, hr]
    · simp [bucketDeaths, alistFind, hk]

theorem confirmedAt_mergeGrouped (fromG into : Grouped) (d : Int) (k : String)
    (h : WFg fromG) :
    confirmedAt (mergeGrouped fromG into) d k
      = confirmedAt into d k + confirmedAt fromG d k := by
  induction fromG generalizing into with
  | nil => simp [mergeGrouped, confirmedAt, alistFind]
  | cons p rest ih =>
    obtain ⟨hnd, hb⟩ := h
    rw [List.map_cons, List.nodup_cons] at hnd
    unfold mergeGrouped at ih ⊢
    rw [List.foldl_cons,
      ih _ ⟨hnd.2, fun q hq => hb q (List.mem_cons_of_mem _ hq)⟩]
    have hb2 : (p.2.map (fun q => q.1)).Nodup := hb p (List.mem_cons_self _ _)
    by_cases hd : p.1 = d
    · subst hd
      have hr : alistFind rest p.1 = none := alistFind_eq_none_iff.mpr hnd.1
      unfold confirmedAt
      rw [alistFind_upsert_self]
      cases hf : alistFind into p.1 with
      | some b =>
        simp only [Option.getD_some]
        rw [bucketConf_mergeBuckets _ _ _ hb2]
        simp [alistFind, hr]
      | none =>
        simp only [Option.getD_none]
        rw [bucketConf_mergeBuckets _ _ _ hb2]
        simp [alistFind, hr, bucketConf]
    · unfold confirmedAt
      rw [alistFind_upsert_ne into [] _ (fun hh => hd hh.symm)]
      simp [alistFind, hd]

theorem deathsAt_mergeGrouped (fromG into : Grouped) (d : Int) (k : String)
    (h : WFg fromG) :
    deathsAt (mergeGrouped fromG into) d k
      = deathsAt into d k + deathsAt fromG d k := by
  induction fromG generalizing into with
  | nil => simp [mergeGrouped, deathsAt, alistFind]
  | cons p rest ih =>
    obtain ⟨hnd, hb⟩ := h
    rw [List.map_cons, List.nodup_cons] at hnd
    unfold mergeGrouped at ih ⊢
    rw [List.foldl_cons,
      ih _ ⟨hnd.2, fun q hq => hb q (List.mem_cons_of_mem _ hq)⟩]
    have hb2 : (p.2.map (fun q => q.1)).Nodup := hb p (List.mem_cons_self _ _)
    by_cases hd : p.1 = d
    · subst hd
      have hr : alistFind rest p.1 = none := alistFind_eq_none_iff.mpr hnd.1
      unfold deathsAt
      rw [alistFind_upsert_self]
      cases hf : alistFind into p.1 with
      | some b =>
        simp only [Option.getD_some]
        rw [bucketDeaths_mergeBuckets _ _ _ hb2]
        simp [alistFind, hr]
      | none =>
        simp only [Option.getD_none]
        rw [bucketDeaths_mergeBuckets _ _ _ hb2]
        simp [alistFind, hr, bucketDeaths]
    · unfold deathsAt
      rw [alistFind_upsert_ne into [] _ (fun hh => hd hh.symm)]
      simp [alistFind, hd]

end MergeLemmas

section WFLemmas

theorem WFg_nil : WFg [] := by
  constructor
  · simp
  · intro p hp
    simp at hp

theorem WFg_upsert {g : Grouped} (dk : Int) (f : DateBucket → DateBucket)
    (h : WFg g)
    (hf : ∀ b, (b.map (fun q => q.1)).Nodup → ((f b).map (fun q => q.1)).Nodup) :
    WFg (upsert g dk [] f) := by
  obtain ⟨h1, h2⟩ := h
  constructor
  · exact upsert_keys_nodup dk [] f h1
  · intro p hp
    rcases upsert_mem hp with hmem | ⟨v, hv, hpv⟩ | ⟨hnone, hpv⟩
    · exact h2 p hmem
    · subst hpv
      exact hf v (h2 (dk, v) (alistFind_mem hv))
    · subst hpv
      exact hf [] (by simp)

theorem mergeBuckets_keys_nodup {into : DateBucket} (fromB : DateBucket)
    (h : (into.map (fun q => q.1)).Nodup) :
    ((mergeBuckets into fromB).map (fun q => q.1)).Nodup := by
  induction fromB generalizing into with
  | nil => exact h
  | cons q rest ih =>
    unfold mergeBuckets at ih ⊢
    rw [List.foldl_cons]
    exact ih (upsert_keys_nodup _ _ _ h)

theorem WFg_processEntry {g : Grouped} (e : CovidCountyRawDataEntry) (h : WFg g) :
    WFg (processEntry g e) :=
  WFg_upsert (dateKey e) _ h (fun b hb => upsert_keys_nodup _ _ _ hb)

theorem WFg_foldShard (l : List CovidCountyRawDataEntry) : WFg (foldShard l) := by
  unfold foldShard
  have h : ∀ g : Grouped, WFg g → WFg (l.foldl processEntry g) := by
    induction l with
    | nil => exact fun g hg => hg
    | cons e rest ih => exact fun g hg => ih _ (WFg_processEntry e hg)
  exact h [] WFg_nil

theorem WFg_mergeGrouped (fromG : Grouped) {into : Grouped} (h : WFg into) :
    WFg (mergeGrouped fromG into) := by
  induction fromG generalizing into with
  | nil => exact h
  | cons p rest ih =>
    unfold mergeGrouped at ih ⊢
    rw [List.foldl_cons]
    exact ih (WFg_upsert p.1 _ h (fun b hb => mergeBuckets_keys_nodup p.2 hb))

end WFLemmas

section CombineLemmas

theorem confirmedAt_combineFoldl (gs : List Grouped) (into : Grouped)
    (d : Int) (k : String) (h : ∀ g ∈ gs, WFg g) :
    confirmedAt (gs.foldl (fun acc fromG => mergeGrouped fromG acc) into) d k
      = confirmedAt into d k + (gs.map (fun g => confirmedAt g d k)).sum := by
  induction gs generalizing into with
  | nil => simp
  | cons g rest ih =>
    rw [List.foldl_cons, ih _ (fun g' hg' => h g' (List.mem_cons_of_mem _ hg')),
      confirmedAt_mergeGrouped g into d k (h g (List.mem_cons_self _ _))]
    rw [List.map_cons, List.sum_cons]
    ring

theorem deathsAt_combineFoldl (gs : List Grouped) (into : Grouped)
    (d : Int) (k : String) (h : ∀ g ∈ gs, WFg g) :
    deathsAt (gs.foldl (fun acc fromG => mergeGrouped fromG acc) into) d k
      = deathsAt into d k + (gs.map (fun g => deathsAt g d k)).sum := by
  induction gs generalizing into with
  | nil => simp
  | cons g rest ih =>
    rw [List.foldl_cons, ih _ (fun g' hg' => h g' (List.mem_cons_of_mem _ hg')),
      deathsAt_mergeGrouped g into d k (h g (List.mem_cons_self _ _))]
    rw [List.map_cons, List.sum_cons]
    ring

theorem specConf_join (shards : List (List CovidCountyRawDataEntry))
    (d : Int) (k : String) :
    (shards.map (fun s => specConf s d k)).sum = specConf shards.flatten d k := by
  induction shards with
  | nil => simp [specConf]
  | cons s rest ih =>
    have hj : (s :: rest).flatten = s ++ rest.flatten := by simp
    rw [List.map_cons, List.sum_cons, ih, hj]
    unfold specConf
    rw [List.map_append, List.sum_append]

theorem specDeaths_join (shards : List (List CovidCountyRawDataEntry))
    (d : Int) (k : String) :
    (shards.map (fun s => specDeaths s d k)).sum = specDeaths shards.flatten d k := by
  induction shards with
  | nil => simp [specDeaths]
  | cons s rest ih =>
    have hj : (s :: rest).flatten = s ++ rest.flatten := by simp
    rw [List.map_cons, List.sum_cons, ih, hj]
    unfold specDeaths
    rw [List.map_append, List.sum_append]

theorem confirmedAt_combinePartials (shards : List (List CovidCountyRawDataEntry))
    (d : Int) (k : String) :
    confirmedAt (combinePartials (shards.map foldShard)) d k
      = confirmedAt (foldShard shards.flatten) d k := by
  unfold combinePartials
  rw [confirmedAt_combineFoldl _ _ _ _
    (by intro g hg; rcases List.mem_map.mp hg with ⟨s, _, rfl⟩; exact WFg_foldShard s)]
  rw [confirmedAt_foldShard]
  have hcomp : ((fun g => confirmedAt g d k) ∘ foldShard) = fun s => specConf s d k := by
    funext s
    exact confirmedAt_foldShard s d k
  rw [List.map_map, hcomp, specConf_join]
  simp [confirmedAt, alistFind]

theorem deathsAt_combinePartials (shards : List (List CovidCountyRawDataEntry))
    (d : Int) (k : String) :
    deathsAt (combinePartials (shards.map foldShard)) d k
      = deathsAt (foldShard shards.flatten) d k := by
  unfold combinePartials
  rw [deathsAt_combineFoldl _ _ _ _
    (by intro g hg; rcases List.mem_map.mp hg with ⟨s, _, rfl⟩; exact WFg_foldShard s)]
  rw [deathsAt_foldShard]
  have hcomp : ((fun g => deathsAt g d k) ∘ foldShard) = fun s => specDeaths s d k := by
    funext s
    exact deathsAt_foldShard s d k
  rw [List.map_map, hcomp, specDeaths_join]
  simp [deathsAt, alistFind]

end CombineLemmas

section GraphLemmas

theorem alistMapAt_append_of_none {κ α : Type} [DecidableEq κ] {S : List (κ × α)} {k : κ}
    (h : alistFind S k = none) (n : α) (f : α → α) :
    alistMapAt (S ++ [(k, n)]) k f = S ++ [(k, f n)] := by
  induction S with
  | nil => simp [alistMapAt]
  | cons q rest ih =>
    rw [alistFind] at h
    by_cases hq : q.1 = k
    · simp [hq] at h
    · rw [if_neg hq] at h
      simp [alistMapAt, hq, ih h]

theorem buildStep_eq (S : List (String × Node)) (N : List Node) (p : String × CountyEntry) :
    buildStep (S, N) p = (stateStep S p, N ++ [countyNodeOf p]) := by
  unfold stateStep buildStep
  cases hf : alistFind
      (if (alistFind S p.2.state).isSome then S
        else S ++ [(p.2.state, emptyStateNode p.2.state)]) p.2.state <;>
    simp [hf]

theorem foldl_buildStep (b : DateBucket) (S : List (String × Node)) (N : List Node) :
    b.foldl buildStep (S, N) = (b.foldl stateStep S, N ++ b.map countyNodeOf) := by
  induction b generalizing S N with
  | nil => simp
  | cons p rest ih =>
    rw [List.foldl_cons, buildStep_eq, ih, List.foldl_cons]
    simp

theorem buildGraph_nodes (date : Int) (b : DateBucket) :
    (buildGraph date b).nodes
      = b.map countyNodeOf ++ (stateAcc b).map (fun q => q.2) := by
  unfold buildGraph stateAcc
  rw [foldl_buildStep]
  simp

theorem buildGraph_timestamp (date : Int) (b : DateBucket) :
    (buildGraph date b).timestamp = date := by
  unfold buildGraph
  rfl

theorem updateStateNode_empty (s key : String) (c : CountyEntry) :
    updateStateNode (emptyStateNode s) key c =
      { name := s, metrics := [("confirmed", c.confirmed), ("deaths", c.deaths)],
        edges_directed := [key], extra_fields := [] } := by
  simp [updateStateNode, emptyStateNode, addMetric, alistFind, mapInsert, alistMapAt,
    setInsert, strLt, charListLt]

theorem updateStateNode_shape (s key : String) (es : List String) (C D : Int)
    (c : CountyEntry) :
    updateStateNode
        { name := s, metrics := [("confirmed", C), ("deaths", D)],
          edges_directed := es, extra_fields := [] } key c =
      { name := s, metrics := [("confirmed", C + c.confirmed), ("deaths", D + c.deaths)],
        edges_directed := setInsert es key, extra_fields := [] } := by
  simp [updateStateNode, addMetric, alistFind, alistMapAt]

theorem stateStep_of_found {S : List (String × Node)} {p : String × CountyEntry} {st : Node}
    (h : alistFind S p.2.state = some st) :
    stateStep S p = alistMapAt S p.2.state (fun _ => updateStateNode st p.1 p.2) := by
  unfold stateStep buildStep
  simp [h]

theorem stateStep_of_notFound {S : List (String × Node)} {p : String × CountyEntry}
    (h : alistFind S p.2.state = none) :
    stateStep S p
      = S ++ [(p.2.state, updateStateNode (emptyStateNode p.2.state) p.1 p.2)] := by
  unfold stateStep buildStep
  have h2 : alistFind (S ++ [(p.2.state, emptyStateNode p.2.state)]) p.2.state
      = some (emptyStateNode p.2.state) := by
    rw [alistFind_append_none h]
    simp [alistFind]
  simp only [h, Option.isSome_none, Bool.false_eq_true, if_false, h2]
  rw [alistMapAt_append_of_none h]

theorem mem_setInsert (l : List String) (k x : String) :
    x ∈ setInsert l k ↔ x = k ∨ x ∈ l := by
  induction l with
  | nil => simp [setInsert]
  | cons y rest ih =>
    unfold setInsert
    by_cases h1 : strLt k y
    · simp [h1]
    · by_cases h2 : k = y
      · subst h2
        simp [h1]
      · simp [h1, h2, ih]
        tauto

theorem hasState_append (b : DateBucket) (p : String × CountyEntry) (s : String) :
    hasState (b ++ [p]) s ↔ hasState b s ∨ p.2.state = s := by
  unfold hasState
  constructor
  · rintro ⟨q, hq, hs⟩
    rcases List.mem_append.mp hq with h1 | h1
    · exact Or.inl ⟨q, h1, hs⟩
    · rw [List.mem_singleton] at h1
      subst h1
      exact Or.inr hs
  · rintro (⟨q, hq, hs⟩ | hs)
    · exact ⟨q, List.mem_append_left _ hq, hs⟩
    · exact ⟨p, List.mem_append_right _ (List.mem_singleton_self _), hs⟩

theorem firstStates_append (b : DateBucket) (p : String × CountyEntry) :
    firstStates (b ++ [p])
      = if p.2.state ∈ firstStates b then firstStates b
        else firstStates b ++ [p.2.state] := by
  unfold firstStates
  rw [List.foldl_append]
  rfl

theorem confSumState_append (b : DateBucket) (p : String × CountyEntry) (s : String) :
    confSumState (b ++ [p]) s
      = confSumState b s + (if p.2.state = s then p.2.confirmed else 0) := by
  unfold confSumState
  rw [List.map_append, List.sum_append]
  simp

theorem deathSumState_append (b : DateBucket) (p : String × CountyEntry) (s : String) :
    deathSumState (b ++ [p]) s
      = deathSumState b s + (if p.2.state = s then p.2.deaths else 0) := by
  unfold deathSumState
  rw [List.map_append, List.sum_append]
  simp

theorem edgeSetOf_append (b : DateBucket) (p : String × CountyEntry) (s : String) :
    edgeSetOf (b ++ [p]) s
      = if p.2.state = s then setInsert (edgeSetOf b s) p.1 else edgeSetOf b s := by
  unfold edgeSetOf
  rw [List.foldl_append]
  rfl

theorem confSumState_of_notHas {b : DateBucket} {s : String} (h : ¬ hasState b s) :
    confSumState b s = 0 := by
  unfold confSumState
  apply List.sum_eq_zero
  intro x hx
  rcases List.mem_map.mp hx with ⟨p, hp, rfl⟩
  have : p.2.state ≠ s := fun hs => h ⟨p, hp, hs⟩
  simp [this]

theorem deathSumState_of_notHas {b : DateBucket} {s : String} (h : ¬ hasState b s) :
    deathSumState b s = 0 := by
  unfold deathSumState
  apply List.sum_eq_zero
  intro x hx
  rcases List.mem_map.mp hx with ⟨p, hp, rfl⟩
  have : p.2.state ≠ s := fun hs => h ⟨p, hp, hs⟩
  simp [this]

theorem edgeSetOf_foldl_const {s : String} :
    ∀ b : DateBucket, (∀ p ∈ b, p.2.state ≠ s) →
      ∀ acc, b.foldl (fun acc p => if p.2.state = s then setInsert acc p.1 else acc) acc
        = acc := by
  intro b
  induction b with
  | nil => intro _ acc; rfl
  | cons p rest ih =>
    intro hall acc
    rw [List.foldl_cons, if_neg (hall p (List.mem_cons_self _ _))]
    exact ih (fun q hq => hall q (List.mem_cons_of_mem _ hq)) acc

theorem edgeSetOf_of_notHas {b : DateBucket} {s : String} (h : ¬ hasState b s) :
    edgeSetOf b s = [] := by
  unfold edgeSetOf
  exact edgeSetOf_foldl_const b (fun p hp hs => h ⟨p, hp, hs⟩) []

theorem stateNodeOf_congr_append {b : DateBucket} {p : String × CountyEntry} {s : String}
    (h : p.2.state ≠ s) : stateNodeOf (b ++ [p]) s = stateNodeOf b s := by
  unfold stateNodeOf
  rw [confSumState_append, deathSumState_append, edgeSetOf_append]
  simp [h]

end GraphLemmas

section StateAccSpec

theorem stateAcc_append (b : DateBucket) (p : String × CountyEntry) :
    stateAcc (b ++ [p]) = stateStep (stateAcc b) p := by
  unfold stateAcc
  rw [List.foldl_append]
  rfl

theorem stateAcc_spec (b : DateBucket) :
    ((stateAcc b).map (fun q => q.1) = firstStates b)
    ∧ ∀ s, alistFind (stateAcc b) s
        = if hasState b s then some (stateNodeOf b s) else none := by
  induction b using List.reverseRecOn with
  | nil =>
    constructor
    · rfl
    · intro s
      rw [if_neg]
      · rfl
      · rintro ⟨p, hp, _⟩
        simp at hp
  | append_singleton b p ih =>
    obtain ⟨ihk, ihf⟩ := ih
    have hmemkeys : ∀ s, s ∈ firstStates b ↔ hasState b s := by
      intro s
      rw [← ihk, ← alistFind_isSome_iff, ihf s]
      by_cases h : hasState b s <;> simp [h]
    by_cases h0 : hasState b p.2.state
    · have hfind : alistFind (stateAcc b) p.2.state = some (stateNodeOf b p.2.state) := by
        rw [ihf]
        simp [h0]
      rw [stateAcc_append, stateStep_of_found hfind]
      constructor
      · rw [alistMapAt_keys, ihk, firstStates_append,
          if_pos ((hmemkeys p.2.state).mpr h0)]
      · intro s
        by_cases hs : s = p.2.state
        · subst hs
          rw [alistFind_mapAt_self _ hfind,
            if_pos ((hasState_append b p p.2.state).mpr (Or.inr rfl))]
          unfold stateNodeOf
          rw [updateStateNode_shape, confSumState_append, deathSumState_append,
            edgeSetOf_append]
          simp
        · rw [alistFind_mapAt_ne _ _ hs, ihf s]
          have hne : p.2.state ≠ s := fun he => hs he.symm
          have hiff : hasState (b ++ [p]) s ↔ hasState b s := by
            rw [hasState_append]
            simp [hne]
          by_cases hb : hasState b s
          · rw [if_pos hb, if_pos (hiff.mpr hb), stateNodeOf_congr_append hne]
          · rw [if_neg hb, if_neg (fun hh => hb (hiff.mp hh))]
    · have hfind : alistFind (stateAcc b) p.2.state = none := by
        rw [ihf]
        simp [h0]
      have hnotmem : p.2.state ∉ firstStates b := fun hm => h0 ((hmemkeys _).mp hm)
      rw [stateAcc_append, stateStep_of_notFound hfind]
      constructor
      · rw [List.map_append, ihk, firstStates_append, if_neg hnotmem]
        rfl
      · intro s
        by_cases hs : s = p.2.state
        · subst hs
          rw [alistFind_append_none hfind]
          rw [show alistFind
                [(p.2.state, updateStateNode (emptyStateNode p.2.state) p.1 p.2)] p.2.state
              = some (updateStateNode (emptyStateNode p.2.state) p.1 p.2) by simp [alistFind]]
          rw [if_pos ((hasState_append b p p.2.state).mpr (Or.inr rfl))]
          rw [updateStateNode_empty]
          unfold stateNodeOf
          rw [confSumState_append, confSumState_of_notHas h0,
            deathSumState_append, deathSumState_of_notHas h0,
            edgeSetOf_append, edgeSetOf_of_notHas h0]
          simp [setInsert]
        · have hne : p.2.state ≠ s := fun he => hs he.symm
          have happ : alistFind
              (stateAcc b ++ [(p.2.state, updateStateNode (emptyStateNode p.2.state) p.1 p.2)]) s
              = alistFind (stateAcc b) s := by
            cases hf2 : alistFind (stateAcc b) s with
            | some v => exact alistFind_append_some hf2
            | none =>
              rw [alistFind_append_none hf2]
              simp [alistFind, hne]
          rw [happ, ihf s]
          have hiff : hasState (b ++ [p]) s ↔ hasState b s := by
            rw [hasState_append]
            simp [hne]
          by_cases hb : hasState b s
          · rw [if_pos hb, if_pos (hiff.mpr hb), stateNodeOf_congr_append hne]
          · rw [if_neg hb, if_neg (fun hh => hb (hiff.mp hh))]

theorem stateAcc_keys (b : DateBucket) :
    (stateAcc b).map (fun q => q.1) = firstStates b := (stateAcc_spec b).1

theorem stateAcc_find (b : DateBucket) (s : String) :
    alistFind (stateAcc b) s
      = if hasState b s then some (stateNodeOf b s) else none := (stateAcc_spec b).2 s

theorem firstStates_foldl_nodup :
    ∀ (b : DateBucket) (acc : List String), acc.Nodup →
      (b.foldl (fun acc p => if p.2.state ∈ acc then acc else acc ++ [p.2.state]) acc).Nodup := by
  intro b
  induction b with
  | nil => exact fun acc h => h
  | cons p rest ih =>
    intro acc h
    rw [List.foldl_cons]
    by_cases hm : p.2.state ∈ acc
    · rw [if_pos hm]
      exact ih acc h
    · rw [if_neg hm]
      refine ih _ (List.Nodup.append h (List.nodup_singleton _) ?_)
      intro a ha hb
      rw [List.mem_singleton] at hb
      subst hb
      exact hm ha

theorem firstStates_nodup (b : DateBucket) : (firstStates b).Nodup :=
  firstStates_foldl_nodup b [] List.nodup_nil

theorem alistFind_of_mem_nodup {κ α : Type} [DecidableEq κ] {l : List (κ × α)}
    (h : (l.map (fun q => q.1)).Nodup) {p : κ × α} (hp : p ∈ l) :
    alistFind l p.1 = some p.2 := by
  induction l with
  | nil => simp at hp
  | cons q rest ih =>
    rw [List.map_cons, List.nodup_cons] at h
    rcases List.mem_cons.mp hp with h1 | h1
    · subst h1
      simp [alistFind]
    · have hne : q.1 ≠ p.1 := by
        intro he
        exact h.1 (he ▸ List.mem_map.mpr ⟨p, h1, rfl⟩)
      rw [alistFind, if_neg hne]
      exact ih h.2 h1

theorem mem_stateAcc_iff (b : DateBucket) (n : Node) :
    n ∈ (stateAcc b).map (fun q => q.2) ↔ ∃ s, hasState b s ∧ n = stateNodeOf b s := by
  constructor
  · intro hn
    rcases List.mem_map.mp hn with ⟨q, hq, rfl⟩
    have hkeys : ((stateAcc b).map (fun q => q.1)).Nodup := by
      rw [stateAcc_keys]
      exact firstStates_nodup b
    have hf := alistFind_of_mem_nodup hkeys hq
    rw [stateAcc_find] at hf
    by_cases hh : hasState b q.1
    · rw [if_pos hh] at hf
      exact ⟨q.1, hh, (Option.some_injective _ hf).symm⟩
    · rw [if_neg hh] at hf
      exact absurd hf (by simp)
  · rintro ⟨s, hh, rfl⟩
    have hf : alistFind (stateAcc b) s = some (stateNodeOf b s) := by
      rw [stateAcc_find, if_pos hh]
    exact List.mem_map.mpr ⟨(s, stateNodeOf b s), alistFind_mem hf, rfl⟩

theorem mem_edgeSetOf_foldl (s : String) :
    ∀ (b : DateBucket) (acc : List String) (x : String),
      x ∈ b.foldl (fun acc p => if p.2.state = s then setInsert acc p.1 else acc) acc
        ↔ x ∈ acc ∨ ∃ p ∈ b, p.1 = x ∧ p.2.state = s := by
  intro b
  induction b with
  | nil => simp
  | cons p rest ih =>
    intro acc x
    rw [List.foldl_cons]
    by_cases hp : p.2.state = s
    · rw [if_pos hp, ih, mem_setInsert]
      constructor
      · rintro ((h1 | h1) | h1)
        · exact Or.inr ⟨p, List.mem_cons_self _ _, h1.symm, hp⟩
        · exact Or.inl h1
        · rcases h1 with ⟨q, hq, hqx, hqs⟩
          exact Or.inr ⟨q, List.mem_cons_of_mem _ hq, hqx, hqs⟩
      · rintro (h1 | ⟨q, hq, hqx, hqs⟩)
        · exact Or.inl (Or.inr h1)
        · rcases List.mem_cons.mp hq with h2 | h2
          · subst h2
            exact Or.inl (Or.inl hqx.symm)
          · exact Or.inr ⟨q, h2, hqx, hqs⟩
    · rw [if_neg hp, ih]
      constructor
      · rintro (h1 | ⟨q, hq, hqx, hqs⟩)
        · exact Or.inl h1
        · exact Or.inr ⟨q, List.mem_cons_of_mem _ hq, hqx, hqs⟩
      · rintro (h1 | ⟨q, hq, hqx, hqs⟩)
        · exact Or.inl h1
        · rcases List.mem_cons.mp hq with h2 | h2
          · subst h2
            exact absurd hqs hp
          · exact Or.inr ⟨q, h2, hqx, hqs⟩

theorem mem_edgeSetOf (b : DateBucket) (s x : String) :
    x ∈ edgeSetOf b s ↔ ∃ p ∈ b, p.1 = x ∧ p.2.state = s := by
  unfold edgeSetOf
  rw [mem_edgeSetOf_foldl]
  simp

end StateAccSpec

section OptLemmas

theorem mapInsert_find_self (l : List (String × Int)) (m : String) (v : Int) :
    alistFind (mapInsert l m v) m = some v := by
  induction l with
  | nil => simp [mapInsert, alistFind]
  | cons q rest ih =>
    unfold mapInsert
    by_cases h1 : strLt m q.1
    · simp [h1, alistFind]
    · by_cases h2 : m = q.1
      · simp only [h1, h2]
        split <;> simp [alistFind]
      · rw [if_neg (by simp [h1]), if_neg h2, alistFind, if_neg (fun he => h2 he.symm)]
        exact ih

theorem addMetricOpt_eq (n : Node) (m : String) (v : Int) :
    addMetricOpt n m v = some (addMetric n m v) := by
  unfold addMetricOpt addMetric
  cases hf : alistFind n.metrics m with
  | some w => simp [hf]
  | none => simp [hf, mapInsert_find_self]

theorem buildStepOpt_eq (acc : List (String × Node) × List Node) (p : String × CountyEntry) :
    buildStepOpt acc p = some (buildStep acc p) := by
  unfold buildStepOpt buildStep
  cases hf : alistFind (if (alistFind acc.1 p.2.state).isSome then acc.1
      else acc.1 ++ [(p.2.state, emptyStateNode p.2.state)]) p.2.state with
  | some st => simp [hf, addMetricOpt_eq, updateStateNode]
  | none =>
    exfalso
    by_cases h : (alistFind acc.1 p.2.state).isSome
    · rw [if_pos h] at hf
      rw [hf] at h
      simp at h
    · rw [if_neg h] at hf
      rw [Option.not_isSome_iff_eq_none] at h
      rw [alistFind_append_none h] at hf
      simp [alistFind] at hf

theorem foldlM_buildStepOpt (b : DateBucket) :
    ∀ acc, b.foldlM buildStepOpt acc = some (b.foldl buildStep acc) := by
  induction b with
  | nil => intro acc; rfl
  | cons p rest ih =>
    intro acc
    simp only [List.foldlM_cons, List.foldl_cons, buildStepOpt_eq, Option.bind_some]
    exact ih _

theorem buildGraphOpt_eq (date : Int) (b : DateBucket) :
    buildGraphOpt date b = some (buildGraph date b) := by
  unfold buildGraphOpt buildGraph
  rw [foldlM_buildStepOpt]

theorem buildGraph_nil_nodes (date : Int) : (buildGraph date []).nodes = [] := rfl

end OptLemmas

section ContainsLemmas

theorem Contains_processEntry_self (g : Grouped) (e : CovidCountyRawDataEntry) :
    Contains (processEntry g e) (dateKey e) (ckey e) := by
  unfold Contains processEntry
  rw [alistFind_upsert_self]
  simp only [Option.getD_some]
  rw [upsert_keys]
  by_cases h : (alistFind ((alistFind g (dateKey e)).getD []) (ckey e)).isSome
  · rw [if_pos h]
    exact alistFind_isSome_iff.mp h
  · rw [if_neg h]
    exact List.mem_append_right _ (List.mem_singleton_self _)

theorem Contains_processEntry_mono {g : Grouped} {d : Int} {k : String}
    (e : CovidCountyRawDataEntry) (h : Contains g d k) :
    Contains (processEntry g e) d k := by
  unfold Contains at h ⊢
  unfold processEntry
  by_cases hd : dateKey e = d
  · subst hd
    rw [alistFind_upsert_self]
    simp only [Option.getD_some]
    rw [upsert_keys]
    by_cases h2 : (alistFind ((alistFind g (dateKey e)).getD []) (ckey e)).isSome
    · rw [if_pos h2]
      exact h
    · rw [if_neg h2]
      exact List.mem_append_left _ h
  · rw [alistFind_upsert_ne g [] _ (fun hh => hd hh.symm)]
    exact h

theorem Contains_foldl_mono (l : List CovidCountyRawDataEntry) {g : Grouped}
    {d : Int} {k : String} (h : Contains g d k) :
    Contains (l.foldl processEntry g) d k := by
  induction l generalizing g with
  | nil => exact h
  | cons e rest ih =>
    rw [List.foldl_cons]
    exact ih (Contains_processEntry_mono e h)

theorem Contains_foldShard {l : List CovidCountyRawDataEntry}
    {r : CovidCountyRawDataEntry} (h : r ∈ l) :
    Contains (foldShard l) (dateKey r) (ckey r) := by
  obtain ⟨s, t, rfl⟩ := List.append_of_mem h
  unfold foldShard
  rw [List.foldl_append, List.foldl_cons]
  exact Contains_foldl_mono t (Contains_processEntry_self _ r)

theorem Contains_countyNode (g : Grouped) (d : Int) (k : String)
    (h : Contains g d k) :
    ∃ n ∈ (buildGraph d ((alistFind g d).getD [])).nodes, n.name = k := by
  unfold Contains at h
  rcases List.mem_map.mp h with ⟨p, hp, rfl⟩
  refine ⟨countyNodeOf p, ?_, rfl⟩
  rw [buildGraph_nodes]
  exact List.mem_append_left _ (List.mem_map.mpr ⟨p, hp, rfl⟩)

end ContainsLemmas

section KeyLemmas

theorem countyKey_inj_state {s1 s2 n : String} (h : s1 ≠ s2) :
    countyKey s1 n ≠ countyKey s2 n := by
  intro he
  apply h
  apply String.ext
  have hd : (s1 ++ " - " ++ n).data = (s2 ++ " - " ++ n).data :=
    congrArg String.data he
  simp only [String.data_append] at hd
  exact List.append_cancel_right (List.append_cancel_right hd)

end KeyLemmas

section NonnegLemmas

theorem specConf_append (l l2 : List CovidCountyRawDataEntry) (d : Int) (k : String) :
    specConf (l ++ l2) d k = specConf l d k + specConf l2 d k := by
  unfold specConf
  rw [List.map_append, List.sum_append]

theorem specDeaths_append (l l2 : List CovidCountyRawDataEntry) (d : Int) (k : String) :
    specDeaths (l ++ l2) d k = specDeaths l d k + specDeaths l2 d k := by
  unfold specDeaths
  rw [List.map_append, List.sum_append]

theorem specConf_nonneg {l : List CovidCountyRawDataEntry}
    (h : ∀ e ∈ l, 0 ≤ e.values) (d : Int) (k : String) : 0 ≤ specConf l d k := by
  unfold specConf
  apply List.sum_nonneg
  intro x hx
  rcases List.mem_map.mp hx with ⟨e, he, rfl⟩
  unfold indConfirmed
  split
  · exact h e he
  · exact le_refl 0

theorem specDeaths_nonneg {l : List CovidCountyRawDataEntry}
    (h : ∀ e ∈ l, 0 ≤ e.values) (d : Int) (k : String) : 0 ≤ specDeaths l d k := by
  unfold specDeaths
  apply List.sum_nonneg
  intro x hx
  rcases List.mem_map.mp hx with ⟨e, he, rfl⟩
  unfold indDeaths
  split
  · exact h e he
  · exact le_refl 0

theorem confirmedAt_nonneg_of {g : Grouped} (h : NonnegG g) (d : Int) (k : String) :
    0 ≤ confirmedAt g d k := by
  unfold confirmedAt
  cases hf : alistFind g d with
  | none => exact le_refl (0 : Int)
  | some b =>
    show 0 ≤ bucketConf b k
    unfold bucketConf
    cases hf2 : alistFind b k with
    | none => exact le_refl (0 : Int)
    | some c =>
      show 0 ≤ c.confirmed
      exact (h _ (alistFind_mem hf) _ (alistFind_mem hf2)).1

theorem deathsAt_nonneg_of {g : Grouped} (h : NonnegG g) (d : Int) (k : String) :
    0 ≤ deathsAt g d k := by
  unfold deathsAt
  cases hf : alistFind g d with
  | none => exact le_refl (0 : Int)
  | some b =>
    show 0 ≤ bucketDeaths b k
    unfold bucketDeaths
    cases hf2 : alistFind b k with
    | none => exact le_refl (0 : Int)
    | some c =>
      show 0 ≤ c.deaths
      exact (h _ (alistFind_mem hf) _ (alistFind_mem hf2)).2

end NonnegLemmas

section WrapLemmas

theorem wrap64_eq_self {x : Int} (h : InI64 x) : wrap64 x = x := by
  unfold wrap64
  have h0 : (0 : Int) ≤ x + 2 ^ 63 := by linarith [h.1]
  have h1 : x + 2 ^ 63 < 2 ^ 64 := by
    have h2 := h.2
    have h3 : (2 : Int) ^ 64 = 2 ^ 63 + 2 ^ 63 := by norm_num
    linarith
  rw [Int.emod_eq_of_lt h0 h1]
  ring

theorem alistMapAt_congr {κ α : Type} [DecidableEq κ] {l : List (κ × α)} {k : κ} {v : α}
    (hf : alistFind l k = some v) {f g : α → α} (h : f v = g v) :
    alistMapAt l k f = alistMapAt l k g := by
  induction l with
  | nil => rfl
  | cons q rest ih =>
    rw [alistFind] at hf
    by_cases hq : q.1 = k
    · rw [if_pos hq] at hf
      injection hf with hv
      subst hv
      simp [alistMapAt, hq, h]
    · rw [if_neg hq] at hf
      simp [alistMapAt, hq, ih hf]

theorem upsert_congr {κ α : Type} [DecidableEq κ] (l : List (κ × α)) (k : κ) (dflt : α)
    {f g : α → α} (h : f ((alistFind l k).getD dflt) = g ((alistFind l k).getD dflt)) :
    upsert l k dflt f = upsert l k dflt g := by
  unfold upsert
  cases hf : alistFind l k with
  | some v =>
    rw [hf] at h
    simp only [Option.getD_some] at h
    exact alistMapAt_congr hf h
  | none =>
    rw [hf] at h
    simp only [Option.getD_none] at h
    rw [h]

theorem bucketConf_cons_self (q : String × CountyEntry) (rest : DateBucket) :
    bucketConf (q :: rest) q.1 = q.2.confirmed := by
  unfold bucketConf
  simp [alistFind]

theorem bucketDeaths_cons_self (q : String × CountyEntry) (rest : DateBucket) :
    bucketDeaths (q :: rest) q.1 = q.2.deaths := by
  unfold bucketDeaths
  simp [alistFind]

theorem bucketConf_cons_ne {k : String} (q : String × CountyEntry) (rest : DateBucket)
    (h : q.1 ≠ k) : bucketConf (q :: rest) k = bucketConf rest k := by
  unfold bucketConf
  simp [alistFind, h]

theorem bucketDeaths_cons_ne {k : String} (q : String × CountyEntry) (rest : DateBucket)
    (h : q.1 ≠ k) : bucketDeaths (q :: rest) k = bucketDeaths rest k := by
  unfold bucketDeaths
  simp [alistFind, h]

theorem bucketConf_eq_zero {b : DateBucket} {k : String}
    (h : alistFind b k = none) : bucketConf b k = 0 := by
  unfold bucketConf
  rw [h]

theorem bucketDeaths_eq_zero {b : DateBucket} {k : String}
    (h : alistFind b k = none) : bucketDeaths b k = 0 := by
  unfold bucketDeaths
  rw [h]

theorem confirmedAt_getD (g : Grouped) (d : Int) (k : String) :
    bucketConf ((alistFind g d).getD []) k = confirmedAt g d k := by
  unfold confirmedAt
  cases alistFind g d with
  | some b => simp
  | none => simp [bucketConf, alistFind]

theorem deathsAt_getD (g : Grouped) (d : Int) (k : String) :
    bucketDeaths ((alistFind g d).getD []) k = deathsAt g d k := by
  unfold deathsAt
  cases alistFind g d with
  | some b => simp
  | none => simp [bucketDeaths, alistFind]

theorem confirmedAt_cons_self (p : Int × DateBucket) (rest : Grouped) (k : String) :
    confirmedAt (p :: rest) p.1 k = bucketConf p.2 k := by
  unfold confirmedAt
  simp [alistFind]

theorem deathsAt_cons_self (p : Int × DateBucket) (rest : Grouped) (k : String) :
    deathsAt (p :: rest) p.1 k = bucketDeaths p.2 k := by
  unfold deathsAt
  simp [alistFind]

theorem confirmedAt_cons_ne {d : Int} (p : Int × DateBucket) (rest : Grouped)
    (k : String) (h : p.1 ≠ d) : confirmedAt (p :: rest) d k = confirmedAt rest d k := by
  unfold confirmedAt
  simp [alistFind, h]

theorem deathsAt_cons_ne {d : Int} (p : Int × DateBucket) (rest : Grouped)
    (k : String) (h : p.1 ≠ d) : deathsAt (p :: rest) d k = deathsAt rest d k := by
  unfold deathsAt
  simp [alistFind, h]

theorem confirmedAt_eq_zero {g : Grouped} {d : Int} (k : String)
    (h : alistFind g d = none) : confirmedAt g d k = 0 := by
  unfold confirmedAt
  rw [h]

theorem deathsAt_eq_zero {g : Grouped} {d : Int} (k : String)
    (h : alistFind g d = none) : deathsAt g d k = 0 := by
  unfold deathsAt
  rw [h]

theorem confirmedAt_upsert_merge (into : Grouped) (d0 : Int) (b0 : DateBucket)
    (k : String) (hb0 : (b0.map (fun q => q.1)).Nodup) :
    confirmedAt (upsert into d0 [] (fun b => mergeBuckets b b0)) d0 k
      = confirmedAt into d0 k + bucketConf b0 k := by
  unfold confirmedAt
  rw [alistFind_upsert_self]
  cases hf : alistFind into d0 with
  | some b =>
    simp only [Option.getD_some]
    exact bucketConf_mergeBuckets b b0 k hb0
  | none =>
    simp only [Option.getD_none]
    rw [bucketConf_mergeBuckets [] b0 k hb0]
    simp [bucketConf, alistFind]

theorem deathsAt_upsert_merge (into : Grouped) (d0 : Int) (b0 : DateBucket)
    (k : String) (hb0 : (b0.map (fun q => q.1)).Nodup) :
    deathsAt (upsert into d0 [] (fun b => mergeBuckets b b0)) d0 k
      = deathsAt into d0 k + bucketDeaths b0 k := by
  unfold deathsAt
  rw [alistFind_upsert_self]
  cases hf : alistFind into d0 with
  | some b =>
    simp only [Option.getD_some]
    exact bucketDeaths_mergeBuckets b b0 k hb0
  | none =>
    simp only [Option.getD_none]
    rw [bucketDeaths_mergeBuckets [] b0 k hb0]
    simp [bucketDeaths, alistFind]

theorem confirmedAt_upsert_of_ne (into : Grouped) (d0 d : Int) (k : String)
    (f : DateBucket → DateBucket) (h : d ≠ d0) :
    confirmedAt (upsert into d0 [] f) d k = confirmedAt into d k := by
  unfold confirmedAt
  rw [alistFind_upsert_ne into [] f h]

theorem deathsAt_upsert_of_ne (into : Grouped) (d0 d : Int) (k : String)
    (f : DateBucket → DateBucket) (h : d ≠ d0) :
    deathsAt (upsert into d0 [] f) d k = deathsAt into d k := by
  unfold deathsAt
  rw [alistFind_upsert_ne into [] f h]

theorem specConf_le_valuesSum {l : List CovidCountyRawDataEntry}
    (h : ∀ e ∈ l, 0 ≤ e.values) (d : Int) (k : String) :
    specConf l d k ≤ (l.map (fun e => e.values)).sum := by
  unfold specConf
  apply List.sum_le_sum
  intro e he
  unfold indConfirmed
  split
  · exact le_refl _
  · exact h e he

theorem specDeaths_le_valuesSum {l : List CovidCountyRawDataEntry}
    (h : ∀ e ∈ l, 0 ≤ e.values) (d : Int) (k : String) :
    specDeaths l d k ≤ (l.map (fun e => e.values)).sum := by
  unfold specDeaths
  apply List.sum_le_sum
  intro e he
  unfold indDeaths
  split
  · exact le_refl _
  · exact h e he

theorem applyKindW_eq (e : CovidCountyRawDataEntry) (c : CountyEntry)
    (h1 : InI64 (c.confirmed + e.values)) (h2 : InI64 (c.deaths + e.values)) :
    applyKindW e c = applyKind e c := by
  by_cases hC : e.entry_type = "Confirmed"
  · unfold applyKindW applyKind
    rw [hC]
    simp [wrap64_eq_self h1]
  · by_cases hD : e.entry_type = "Deaths"
    · unfold applyKindW applyKind
      rw [hD]
      simp [wrap64_eq_self h2]
    · have hW : applyKindW e c = c := by
        unfold applyKindW
        split <;> simp_all
      have hA : applyKind e c = c := by
        unfold applyKind
        split <;> simp_all
      rw [hW, hA]

theorem getD_confirmed (g : Grouped) (e : CovidCountyRawDataEntry) :
    ((alistFind ((alistFind g (dateKey e)).getD []) (ckey e)).getD (freshCounty e)).confirmed
      = confirmedAt g (dateKey e) (ckey e) := by
  unfold confirmedAt
  cases hf : alistFind g (dateKey e) with
  | none =>
    simp only [Option.getD_none]
    simp [alistFind, freshCounty]
  | some b =>
    simp only [Option.getD_some]
    show _ = bucketConf b (ckey e)
    unfold bucketConf
    cases hf2 : alistFind b (ckey e) with
    | none => simp [freshCounty]
    | some c0 => simp

theorem getD_deaths (g : Grouped) (e : CovidCountyRawDataEntry) :
    ((alistFind ((alistFind g (dateKey e)).getD []) (ckey e)).getD (freshCounty e)).deaths
      = deathsAt g (dateKey e) (ckey e) := by
  unfold deathsAt
  cases hf : alistFind g (dateKey e) with
  | none =>
    simp only [Option.getD_none]
    simp [alistFind, freshCounty]
  | some b =>
    simp only [Option.getD_some]
    show _ = bucketDeaths b (ckey e)
    unfold bucketDeaths
    cases hf2 : alistFind b (ckey e) with
    | none => simp [freshCounty]
    | some c0 => simp

theorem processEntryW_eq (g : Grouped) (e : CovidCountyRawDataEntry)
    (h : applyKindW e
          ((alistFind ((alistFind g (dateKey e)).getD []) (ckey e)).getD (freshCounty e))
        = applyKind e
          ((alistFind ((alistFind g (dateKey e)).getD []) (ckey e)).getD (freshCounty e))) :
    processEntryW g e = processEntry g e := by
  unfold processEntryW processEntry
  exact upsert_congr _ _ _ (upsert_congr _ _ _ h)

theorem foldShard_append_one (l : List CovidCountyRawDataEntry)
    (e : CovidCountyRawDataEntry) :
    foldShard (l ++ [e]) = processEntry (foldShard l) e := by
  unfold foldShard
  rw [List.foldl_append]
  rfl

theorem foldShardW_append_one (l : List CovidCountyRawDataEntry)
    (e : CovidCountyRawDataEntry) :
    foldShardW (l ++ [e]) = processEntryW (foldShardW l) e := by
  unfold foldShardW
  rw [List.foldl_append]
  rfl

theorem foldShardW_eq (l : List CovidCountyRawDataEntry) :
    (∀ e ∈ l, 0 ≤ e.values) →
    (l.map (fun e => e.values)).sum < 2 ^ 63 →
    foldShardW l = foldShard l := by
  induction l using List.reverseRecOn with
  | nil =>
    intro _ _
    rfl
  | append_singleton l e ih =>
    intro h hb
    have hl : ∀ x ∈ l, 0 ≤ x.values := fun x hx => h x (List.mem_append_left _ hx)
    have he0 : 0 ≤ e.values := h e (List.mem_append_right _ (List.mem_singleton_self _))
    have hsum : ((l ++ [e]).map (fun x => x.values)).sum
        = (l.map (fun x => x.values)).sum + e.values := by
      rw [List.map_append, List.sum_append]
      simp
    have hbl : (l.map (fun x => x.values)).sum < 2 ^ 63 := by linarith
    have hp : (0 : Int) < 2 ^ 63 := by norm_num
    rw [foldShardW_append_one, foldShard_append_one, ih hl hbl]
    apply processEntryW_eq
    apply applyKindW_eq
    · rw [getD_confirmed, confirmedAt_foldShard]
      constructor
      · linarith [specConf_nonneg hl (dateKey e) (ckey e)]
      · linarith [specConf_le_valuesSum hl (dateKey e) (ckey e)]
    · rw [getD_deaths, deathsAt_foldShard]
      constructor
      · linarith [specDeaths_nonneg hl (dateKey e) (ckey e)]
      · linarith [specDeaths_le_valuesSum hl (dateKey e) (ckey e)]

theorem mergeCountyW_eq (b : DateBucket) (q : String × CountyEntry)
    (h1 : InI64 (bucketConf b q.1 + q.2.confirmed))
    (h2 : InI64 (bucketDeaths b q.1 + q.2.deaths)) :
    mergeCountyW b q = mergeCounty b q := by
  unfold mergeCountyW mergeCounty
  apply upsert_congr
  have hc : ((alistFind b q.1).getD
      { name := q.2.name, state := q.2.state, confirmed := 0, deaths := 0 }).confirmed
      = bucketConf b q.1 := by
    unfold bucketConf
    cases alistFind b q.1 <;> simp
  have hd : ((alistFind b q.1).getD
      { name := q.2.name, state := q.2.state, confirmed := 0, deaths := 0 }).deaths
      = bucketDeaths b q.1 := by
    unfold bucketDeaths
    cases alistFind b q.1 <;> simp
  rw [hc, hd, wrap64_eq_self h1, wrap64_eq_self h2]

theorem mergeBucketsW_eq (fromB : DateBucket) :
    ∀ into : DateBucket, (fromB.map (fun q => q.1)).Nodup →
      (∀ k, InI64 (bucketConf into k + bucketConf fromB k)
        ∧ InI64 (bucketDeaths into k + bucketDeaths fromB k)) →
      mergeBucketsW into fromB = mergeBuckets into fromB := by
  induction fromB with
  | nil =>
    intro into _ _
    rfl
  | cons q rest ih =>
    intro into hnd hrange
    rw [List.map_cons, List.nodup_cons] at hnd
    have hq : mergeCountyW into q = mergeCounty into q := by
      apply mergeCountyW_eq
      · have h0 := (hrange q.1).1
        rw [bucketConf_cons_self] at h0
        exact h0
      · have h0 := (hrange q.1).2
        rw [bucketDeaths_cons_self] at h0
        exact h0
    have hz : alistFind rest q.1 = none := alistFind_eq_none_iff.mpr hnd.1
    have hrest : ∀ k, InI64 (bucketConf (mergeCounty into q) k + bucketConf rest k)
        ∧ InI64 (bucketDeaths (mergeCounty into q) k + bucketDeaths rest k) := by
      intro k
      rw [bucketConf_mergeCounty, bucketDeaths_mergeCounty]
      by_cases hk : q.1 = k
      · subst hk
        rw [bucketConf_eq_zero hz, bucketDeaths_eq_zero hz, if_pos rfl, if_pos rfl,
          add_zero, add_zero]
        have h0 := hrange q.1
        rw [bucketConf_cons_self, bucketDeaths_cons_self] at h0
        exact h0
      · rw [if_neg hk, if_neg hk, add_zero, add_zero,
          ← bucketConf_cons_ne q rest hk, ← bucketDeaths_cons_ne q rest hk]
        exact hrange k
    unfold mergeBucketsW mergeBuckets
    rw [List.foldl_cons, List.foldl_cons, hq]
    have hres := ih (mergeCounty into q) hnd.2 hrest
    unfold mergeBucketsW mergeBuckets at hres
    exact hres

theorem mergeGroupedW_eq (fromG : Grouped) :
    ∀ into : Grouped, WFg fromG →
      (∀ (d : Int) (k : String),
        InI64 (confirmedAt into d k + confirmedAt fromG d k)
        ∧ InI64 (deathsAt into d k + deathsAt fromG d k)) →
      mergeGroupedW fromG into = mergeGrouped fromG into := by
  induction fromG with
  | nil =>
    intro into _ _
    rfl
  | cons p rest ih =>
    intro into hwf hrange
    obtain ⟨hnd, hb⟩ := hwf
    rw [List.map_cons, List.nodup_cons] at hnd
    have hb2 : (p.2.map (fun q => q.1)).Nodup := hb p (List.mem_cons_self _ _)
    have hstep : upsert into p.1 [] (fun b => mergeBucketsW b p.2)
        = upsert into p.1 [] (fun b => mergeBuckets b p.2) := by
      apply upsert_congr
      show mergeBucketsW ((alistFind into p.1).getD []) p.2
          = mergeBuckets ((alistFind into p.1).getD []) p.2
      apply mergeBucketsW_eq p.2 _ hb2
      intro k
      have h0 := hrange p.1 k
      rw [confirmedAt_cons_self, deathsAt_cons_self] at h0
      rw [confirmedAt_getD, deathsAt_getD]
      exact h0
    have hz : alistFind rest p.1 = none := alistFind_eq_none_iff.mpr hnd.1
    have hrest : ∀ (d : Int) (k : String),
        InI64 (confirmedAt (upsert into p.1 [] (fun b => mergeBuckets b p.2)) d k
          + confirmedAt rest d k)
        ∧ InI64 (deathsAt (upsert into p.1 [] (fun b => mergeBuckets b p.2)) d k
          + deathsAt rest d k) := by
      intro d k
      by_cases hd : p.1 = d
      · subst hd
        rw [confirmedAt_upsert_merge into p.1 p.2 k hb2,
          deathsAt_upsert_merge into p.1 p.2 k hb2,
          confirmedAt_eq_zero k hz, deathsAt_eq_zero k hz, add_zero, add_zero]
        have h0 := hrange p.1 k
        rw [confirmedAt_cons_self, deathsAt_cons_self] at h0
        exact h0
      · rw [confirmedAt_upsert_of_ne into p.1 d k _ (fun hh => hd hh.symm),
          deathsAt_upsert_of_ne into p.1 d k _ (fun hh => hd hh.symm),
          ← confirmedAt_cons_ne p rest k hd, ← deathsAt_cons_ne p rest k hd]
        exact hrange d k
    unfold mergeGroupedW mergeGrouped
    rw [List.foldl_cons, List.foldl_cons, hstep]
    have hres := ih (upsert into p.1 [] (fun b => mergeBuckets b p.2))
      ⟨hnd.2, fun q hq => hb q (List.mem_cons_of_mem _ hq)⟩ hrest
    unfold mergeGroupedW mergeGrouped at hres
    exact hres

end WrapLemmas

section Claims

/-- C1, as stated, is false: the program derives the date key with
`entry.date / 1000` (truncation to seconds), not truncation to UTC day
granularity.  Counterexample: timestamps 0 ms and 3600000 ms lie on the
same UTC calendar day, yet get different date keys (0 and 3600) and land
in two distinct DateBuckets. -/
theorem C1_day_truncation_counterexample :
    specUtcDay (0 : Int) = specUtcDay 3600000
    ∧ dateKey ⟨0, "Alpha", "CA", 1, "Confirmed"⟩
        ≠ dateKey ⟨3600000, "Alpha", "CA", 1, "Confirmed"⟩
    ∧ (foldShard [⟨0, "Alpha", "CA", 1, "Confirmed"⟩,
        ⟨3600000, "Alpha", "CA", 1, "Confirmed"⟩]).map (fun p => p.1) = [0, 3600] := by
  refine ⟨by decide, by decide, by decide⟩

/-- C1 (amended): the Record Normalizer derives the date key by truncating
the millisecond timestamp to second granularity (`date.tdiv 1000`); any two
observations whose timestamps agree after this second-truncation get the
same date key and are placed in the same DateBucket. -/
theorem C1_second_truncation (e1 e2 : CovidCountyRawDataEntry)
    (h : e1.date.tdiv 1000 = e2.date.tdiv 1000) :
    dateKey e1 = dateKey e2
    ∧ ∀ l : List CovidCountyRawDataEntry, e1 ∈ l → e2 ∈ l →
        Contains (foldShard l) (dateKey e1) (ckey e1)
        ∧ Contains (foldShard l) (dateKey e1) (ckey e2) := by
  have hd : dateKey e1 = dateKey e2 := h
  refine ⟨hd, fun l h1 h2 => ⟨Contains_foldShard h1, ?_⟩⟩
  rw [hd]
  exact Contains_foldShard h2

/-- Witness for `C1_second_truncation` at a concrete pair of records that
fall within the same second. -/
theorem C1_second_truncation_witness :
    Contains
      (foldShard [⟨1000, "Alpha", "CA", 1, "Confirmed"⟩,
        ⟨1500, "Beta", "CA", 2, "Deaths"⟩])
      (dateKey (⟨1000, "Alpha", "CA", 1, "Confirmed"⟩ : CovidCountyRawDataEntry))
      (ckey (⟨1500, "Beta", "CA", 2, "Deaths"⟩ : CovidCountyRawDataEntry)) :=
  ((C1_second_truncation ⟨1000, "Alpha", "CA", 1, "Confirmed"⟩
      ⟨1500, "Beta", "CA", 2, "Deaths"⟩ (by decide)).2
    [⟨1000, "Alpha", "CA", 1, "Confirmed"⟩, ⟨1500, "Beta", "CA", 2, "Deaths"⟩]
    (by decide) (by decide)).2

/-- C2: sharding never affects the result — combining per-shard folds with
the reduce closure yields the same confirmed/deaths sums at every date and
county key as the one-shard fold of the concatenation — and the merge is
commutative and associative on well-formed partial maps with respect to
those sums. -/
theorem C2_shard_merge_invariance :
    (∀ (shards : List (List CovidCountyRawDataEntry)) (d : Int) (k : String),
        confirmedAt (combinePartials (shards.map foldShard)) d k
            = confirmedAt (foldShard shards.flatten) d k
        ∧ deathsAt (combinePartials (shards.map foldShard)) d k
            = deathsAt (foldShard shards.flatten) d k)
    ∧ (∀ a b : Grouped, WFg a → WFg b → ∀ (d : Int) (k : String),
        confirmedAt (mergeGrouped a b) d k = confirmedAt (mergeGrouped b a) d k
        ∧ deathsAt (mergeGrouped a b) d k = deathsAt (mergeGrouped b a) d k)
    ∧ (∀ a b c : Grouped, WFg a → WFg b → WFg c → ∀ (d : Int) (k : String),
        confirmedAt (mergeGrouped (mergeGrouped a b) c) d k
            = confirmedAt (mergeGrouped a (mergeGrouped b c)) d k
        ∧ deathsAt (mergeGrouped (mergeGrouped a b) c) d k
            = deathsAt (mergeGrouped a (mergeGrouped b c)) d k) := by
  refine ⟨fun shards d k =>
    ⟨confirmedAt_combinePartials shards d k, deathsAt_combinePartials shards d k⟩, ?_, ?_⟩
  · intro a b ha hb d k
    constructor
    · rw [confirmedAt_mergeGrouped a b d k ha, confirmedAt_mergeGrouped b a d k hb]
      ring
    · rw [deathsAt_mergeGrouped a b d k ha, deathsAt_mergeGrouped b a d k hb]
      ring
  · intro a b c ha hb hc d k
    constructor
    · rw [confirmedAt_mergeGrouped _ c d k (WFg_mergeGrouped a hb),
        confirmedAt_mergeGrouped a b d k ha,
        confirmedAt_mergeGrouped a _ d k ha,
        confirmedAt_mergeGrouped b c d k hb]
      ring
    · rw [deathsAt_mergeGrouped _ c d k (WFg_mergeGrouped a hb),
        deathsAt_mergeGrouped a b d k ha,
        deathsAt_mergeGrouped a _ d k ha,
        deathsAt_mergeGrouped b c d k hb]
      ring

/-- Witness for `C2_shard_merge_invariance` at concrete shards and
concrete well-formed partial maps. -/
theorem C2_shard_merge_invariance_witness :
    (confirmedAt (combinePartials
        ([[(⟨0, "Alpha", "CA", 3, "Confirmed"⟩ : CovidCountyRawDataEntry)],
          [⟨0, "Alpha", "CA", 4, "Confirmed"⟩]].map foldShard)) 0 "CA - Alpha"
      = confirmedAt (foldShard
          [[(⟨0, "Alpha", "CA", 3, "Confirmed"⟩ : CovidCountyRawDataEntry)],
            [⟨0, "Alpha", "CA", 4, "Confirmed"⟩]].flatten) 0 "CA - Alpha")
    ∧ (confirmedAt (mergeGrouped [(0, [("CA - Alpha", ⟨"Alpha", "CA", 1, 0⟩)])]
          [(0, [("CA - Alpha", ⟨"Alpha", "CA", 2, 0⟩)])]) 0 "CA - Alpha"
        = confirmedAt (mergeGrouped [(0, [("CA - Alpha", ⟨"Alpha", "CA", 2, 0⟩)])]
          [(0, [("CA - Alpha", ⟨"Alpha", "CA", 1, 0⟩)])]) 0 "CA - Alpha")
    ∧ (confirmedAt (mergeGrouped
          (mergeGrouped [(0, [("CA - Alpha", ⟨"Alpha", "CA", 1, 0⟩)])]
            [(0, [("CA - Alpha", ⟨"Alpha", "CA", 2, 0⟩)])])
          [(0, [("CA - Alpha", ⟨"Alpha", "CA", 4, 0⟩)])]) 0 "CA - Alpha"
        = confirmedAt (mergeGrouped [(0, [("CA - Alpha", ⟨"Alpha", "CA", 1, 0⟩)])]
            (mergeGrouped [(0, [("CA - Alpha", ⟨"Alpha", "CA", 2, 0⟩)])]
              [(0, [("CA - Alpha", ⟨"Alpha", "CA", 4, 0⟩)])])) 0 "CA - Alpha") :=
  ⟨(C2_shard_merge_invariance.1
      [[⟨0, "Alpha", "CA", 3, "Confirmed"⟩], [⟨0, "Alpha", "CA", 4, "Confirmed"⟩]]
      0 "CA - Alpha").1,
    (C2_shard_merge_invariance.2.1
      [(0, [("CA - Alpha", ⟨"Alpha", "CA", 1, 0⟩)])]
      [(0, [("CA - Alpha", ⟨"Alpha", "CA", 2, 0⟩)])]
      (by decide) (by decide) 0 "CA - Alpha").1,
    (C2_shard_merge_invariance.2.2
      [(0, [("CA - Alpha", ⟨"Alpha", "CA", 1, 0⟩)])]
      [(0, [("CA - Alpha", ⟨"Alpha", "CA", 2, 0⟩)])]
      [(0, [("CA - Alpha", ⟨"Alpha", "CA", 4, 0⟩)])]
      (by decide) (by decide) (by decide) 0 "CA - Alpha").1⟩

/-- C3: in every built Graph the nodes are the county nodes plus one state
node per distinct state; every state node carries exactly the sums of the
confirmed/deaths of its counties and its edge set is exactly their county
keys; every county's state is represented by exactly one state node. -/
theorem C3_state_sum_invariant (date : Int) (b : DateBucket) :
    ((buildGraph date b).nodes
        = b.map countyNodeOf ++ (stateAcc b).map (fun q => q.2))
    ∧ (∀ n, n ∈ (stateAcc b).map (fun q => q.2) →
        n.metrics = [("confirmed", confSumState b n.name),
          ("deaths", deathSumState b n.name)]
        ∧ (∀ x, x ∈ n.edges_directed ↔ ∃ p ∈ b, p.1 = x ∧ p.2.state = n.name))
    ∧ (∀ p ∈ b, ∃! n, n ∈ (stateAcc b).map (fun q => q.2) ∧ n.name = p.2.state) := by
  refine ⟨buildGraph_nodes date b, ?_, ?_⟩
  · intro n hn
    rcases (mem_stateAcc_iff b n).mp hn with ⟨s, hs, rfl⟩
    refine ⟨rfl, fun x => ?_⟩
    show x ∈ edgeSetOf b s ↔ _
    rw [mem_edgeSetOf]
    rfl
  · intro p hp
    have hh : hasState b p.2.state := ⟨p, hp, rfl⟩
    refine ⟨stateNodeOf b p.2.state,
      ⟨(mem_stateAcc_iff b _).mpr ⟨p.2.state, hh, rfl⟩, rfl⟩, ?_⟩
    rintro n ⟨hn, hname⟩
    rcases (mem_stateAcc_iff b n).mp hn with ⟨s, hs, rfl⟩
    have hs2 : s = p.2.state := hname
    rw [hs2]

/-- Witness for `C3_state_sum_invariant` at a concrete one-county bucket. -/
theorem C3_state_sum_invariant_witness :
    (stateNodeOf [("CA - Alpha", (⟨"Alpha", "CA", 3, 1⟩ : CountyEntry))] "CA").metrics
      = [("confirmed", confSumState [("CA - Alpha", ⟨"Alpha", "CA", 3, 1⟩)]
            (stateNodeOf [("CA - Alpha", ⟨"Alpha", "CA", 3, 1⟩)] "CA").name),
         ("deaths", deathSumState [("CA - Alpha", ⟨"Alpha", "CA", 3, 1⟩)]
            (stateNodeOf [("CA - Alpha", ⟨"Alpha", "CA", 3, 1⟩)] "CA").name)] :=
  ((C3_state_sum_invariant 0 [("CA - Alpha", ⟨"Alpha", "CA", 3, 1⟩)]).2.1
    (stateNodeOf [("CA - Alpha", ⟨"Alpha", "CA", 3, 1⟩)] "CA") (by decide)).1

/-- C4: on the four-record single-date input the pipeline produces exactly
the Graph demanded by the spec scenario: three county nodes with their
sums, and state nodes CA (15, 2, two edges) and NY (7, 0, one edge). -/
theorem C4_concrete_scenario :
    graphsOf [⟨86400000, "Alpha", "CA", 10, "Confirmed"⟩,
        ⟨86400000, "Alpha", "CA", 2, "Deaths"⟩,
        ⟨86400000, "Beta", "CA", 5, "Confirmed"⟩,
        ⟨86400000, "Alpha", "NY", 7, "Confirmed"⟩]
      = [{ timestamp := 86400,
           nodes := [
             { name := "CA - Alpha", metrics := [("confirmed", 10), ("deaths", 2)],
               edges_directed := [], extra_fields := [("display_name", "Alpha")] },
             { name := "CA - Beta", metrics := [("confirmed", 5), ("deaths", 0)],
               edges_directed := [], extra_fields := [("display_name", "Beta")] },
             { name := "NY - Alpha", metrics := [("confirmed", 7), ("deaths", 0)],
               edges_directed := [], extra_fields := [("display_name", "Alpha")] },
             { name := "CA", metrics := [("confirmed", 15), ("deaths", 2)],
               edges_directed := ["CA - Alpha", "CA - Beta"], extra_fields := [] },
             { name := "NY", metrics := [("confirmed", 7), ("deaths", 0)],
               edges_directed := ["NY - Alpha"], extra_fields := [] }] }] := by
  decide

/-- C5 evaluated at the failing input: two iteration orders of the same
DateBucket content (a transposition, hence the same finite map) yield
different node sequences in the built Graph, so the serialized bytes of a
run depend on HashMap iteration order, which is randomized per run. -/
theorem C5_order_dependence :
    ([("CA - Alpha", (⟨"Alpha", "CA", 10, 2⟩ : CountyEntry)),
        ("CA - Beta", ⟨"Beta", "CA", 5, 0⟩)] : DateBucket).Perm
      [("CA - Beta", ⟨"Beta", "CA", 5, 0⟩), ("CA - Alpha", ⟨"Alpha", "CA", 10, 2⟩)]
    ∧ buildGraph 0 [("CA - Alpha", ⟨"Alpha", "CA", 10, 2⟩),
          ("CA - Beta", ⟨"Beta", "CA", 5, 0⟩)]
        ≠ buildGraph 0 [("CA - Beta", ⟨"Beta", "CA", 5, 0⟩),
          ("CA - Alpha", ⟨"Alpha", "CA", 10, 2⟩)] := by
  constructor
  · exact List.Perm.swap _ _ _
  · decide

/-- C6: two records with the same county name, same date, different states
get distinct county keys, both accumulators exist separately (their sums
count only records with their own exact key), and their county nodes in
the built Graph are distinct. -/
theorem C6_namespacing (l : List CovidCountyRawDataEntry)
    (r1 r2 : CovidCountyRawDataEntry) (h1 : r1 ∈ l) (h2 : r2 ∈ l)
    (hc : r1.county = r2.county) (hd : dateKey r1 = dateKey r2)
    (hs : r1.state ≠ r2.state) :
    ckey r1 ≠ ckey r2
    ∧ Contains (foldShard l) (dateKey r1) (ckey r1)
    ∧ Contains (foldShard l) (dateKey r1) (ckey r2)
    ∧ (∀ (d : Int) (k : String), confirmedAt (foldShard l) d k = specConf l d k
        ∧ deathsAt (foldShard l) d k = specDeaths l d k)
    ∧ ∃ n1 n2,
        n1 ∈ (buildGraph (dateKey r1)
          ((alistFind (foldShard l) (dateKey r1)).getD [])).nodes
        ∧ n2 ∈ (buildGraph (dateKey r1)
          ((alistFind (foldShard l) (dateKey r1)).getD [])).nodes
        ∧ n1.name = ckey r1 ∧ n2.name = ckey r2 ∧ n1 ≠ n2 := by
  have hkey : ckey r1 ≠ ckey r2 := by
    unfold ckey
    rw [hc]
    exact countyKey_inj_state hs
  refine ⟨hkey, Contains_foldShard h1, ?_,
    fun d k => ⟨confirmedAt_foldShard l d k, deathsAt_foldShard l d k⟩, ?_⟩
  · rw [hd]
    exact Contains_foldShard h2
  · obtain ⟨m1, hm1, hn1⟩ :=
      Contains_countyNode _ _ _ (Contains_foldShard h1)
    obtain ⟨m2, hm2, hn2⟩ :=
      Contains_countyNode (foldShard l) (dateKey r1) (ckey r2)
        (by rw [hd]; exact Contains_foldShard h2)
    exact ⟨m1, m2, hm1, hm2, hn1, hn2,
      fun he => hkey (by rw [← hn1, ← hn2, he])⟩

/-- Witness for `C6_namespacing`: same county name "Alpha" in CA and NY. -/
theorem C6_namespacing_witness :
    ckey (⟨0, "Alpha", "CA", 1, "Confirmed"⟩ : CovidCountyRawDataEntry)
      ≠ ckey (⟨0, "Alpha", "NY", 2, "Confirmed"⟩ : CovidCountyRawDataEntry) :=
  (C6_namespacing
    [⟨0, "Alpha", "CA", 1, "Confirmed"⟩, ⟨0, "Alpha", "NY", 2, "Confirmed"⟩]
    ⟨0, "Alpha", "CA", 1, "Confirmed"⟩ ⟨0, "Alpha", "NY", 2, "Confirmed"⟩
    (by decide) (by decide) (by decide) (by decide) (by decide)).1

/-- C7: a record whose kind is neither "Confirmed" nor "Deaths" changes no
confirmed or deaths value at any date and county key (inserting it into
any input position leaves all sums unchanged), yet the record is consumed:
its county accumulator exists in the grouped result. -/
theorem C7_unknown_kind (l1 l2 : List CovidCountyRawDataEntry)
    (r : CovidCountyRawDataEntry) (hC : r.entry_type ≠ "Confirmed")
    (hD : r.entry_type ≠ "Deaths") :
    (∀ (d : Int) (k : String),
        confirmedAt (foldShard (l1 ++ r :: l2)) d k
            = confirmedAt (foldShard (l1 ++ l2)) d k
        ∧ deathsAt (foldShard (l1 ++ r :: l2)) d k
            = deathsAt (foldShard (l1 ++ l2)) d k)
    ∧ Contains (foldShard (l1 ++ r :: l2)) (dateKey r) (ckey r) := by
  constructor
  · intro d k
    have hslice : (l1 ++ r :: l2) = l1 ++ [r] ++ l2 := by simp
    constructor
    · rw [confirmedAt_foldShard, confirmedAt_foldShard, hslice,
        specConf_append, specConf_append, specConf_append]
      have h0 : specConf [r] d k = 0 := by
        unfold specConf
        simp [indConfirmed, hC]
      rw [h0]
      ring
    · rw [deathsAt_foldShard, deathsAt_foldShard, hslice,
        specDeaths_append, specDeaths_append, specDeaths_append]
      have h0 : specDeaths [r] d k = 0 := by
        unfold specDeaths
        simp [indDeaths, hD]
      rw [h0]
      ring
  · exact Contains_foldShard (by simp)

/-- Witness for `C7_unknown_kind` at a concrete "Recovered" record. -/
theorem C7_unknown_kind_witness :
    (confirmedAt (foldShard ([]
          ++ (⟨0, "Alpha", "CA", 5, "Recovered"⟩ : CovidCountyRawDataEntry) :: []))
        0 "CA - Alpha"
      = confirmedAt (foldShard ([] ++ [])) 0 "CA - Alpha")
    ∧ Contains (foldShard ([]
          ++ (⟨0, "Alpha", "CA", 5, "Recovered"⟩ : CovidCountyRawDataEntry) :: []))
        (dateKey (⟨0, "Alpha", "CA", 5, "Recovered"⟩ : CovidCountyRawDataEntry))
        (ckey (⟨0, "Alpha", "CA", 5, "Recovered"⟩ : CovidCountyRawDataEntry)) :=
  ⟨((C7_unknown_kind [] [] ⟨0, "Alpha", "CA", 5, "Recovered"⟩
      (by decide) (by decide)).1 0 "CA - Alpha").1,
    (C7_unknown_kind [] [] ⟨0, "Alpha", "CA", 5, "Recovered"⟩
      (by decide) (by decide)).2⟩

/-- C8, as stated, fails on the program: the accumulators are `i64`, whose
`+=` wraps in release builds (and panics in debug builds).  Two records of
value 2^62 — both non-negative — for one county drive its confirmed
accumulator to -2^63: negative, and strictly below its value after the
first record, refuting non-negativity and monotonicity. -/
theorem C8_overflow_counterexample :
    (∀ e ∈ [(⟨0, "Alpha", "CA", 4611686018427387904, "Confirmed"⟩ : CovidCountyRawDataEntry),
        ⟨0, "Alpha", "CA", 4611686018427387904, "Confirmed"⟩], 0 ≤ e.values)
    ∧ confirmedAt (foldShardW [⟨0, "Alpha", "CA", 4611686018427387904, "Confirmed"⟩,
        ⟨0, "Alpha", "CA", 4611686018427387904, "Confirmed"⟩]) 0 "CA - Alpha" < 0
    ∧ ¬ (confirmedAt (foldShardW
          [(⟨0, "Alpha", "CA", 4611686018427387904, "Confirmed"⟩ : CovidCountyRawDataEntry)])
          0 "CA - Alpha"
        ≤ confirmedAt (foldShardW [⟨0, "Alpha", "CA", 4611686018427387904, "Confirmed"⟩,
            ⟨0, "Alpha", "CA", 4611686018427387904, "Confirmed"⟩]) 0 "CA - Alpha") := by
  refine ⟨by decide, by decide, by decide⟩

/-- C8 (amended): for every input of non-negative values whose total value
sum stays below 2^63 (so no `i64` addition overflows), the wrapping `i64`
accumulators coincide with the ideal unbounded sums; consequently every
confirmed and deaths accumulator is non-negative, is non-decreasing as
further records are appended, and is non-decreasing when another shard's
partial result is merged in by the reduce closure. -/
theorem C8_monotone_nonneg (l1 l2 : List CovidCountyRawDataEntry)
    (h : ∀ e ∈ l1 ++ l2, 0 ≤ e.values)
    (hb : ((l1 ++ l2).map (fun e => e.values)).sum < 2 ^ 63) :
    (foldShardW (l1 ++ l2) = foldShard (l1 ++ l2))
    ∧ (∀ (d : Int) (k : String),
        0 ≤ confirmedAt (foldShardW (l1 ++ l2)) d k
        ∧ 0 ≤ deathsAt (foldShardW (l1 ++ l2)) d k)
    ∧ (∀ (d : Int) (k : String),
        confirmedAt (foldShardW l1) d k ≤ confirmedAt (foldShardW (l1 ++ l2)) d k
        ∧ deathsAt (foldShardW l1) d k ≤ deathsAt (foldShardW (l1 ++ l2)) d k)
    ∧ (mergeGroupedW (foldShardW l2) (foldShardW l1)
        = mergeGrouped (foldShard l2) (foldShard l1))
    ∧ (∀ (d : Int) (k : String),
        confirmedAt (foldShardW l1) d k
          ≤ confirmedAt (mergeGroupedW (foldShardW l2) (foldShardW l1)) d k
        ∧ deathsAt (foldShardW l1) d k
          ≤ deathsAt (mergeGroupedW (foldShardW l2) (foldShardW l1)) d k) := by
  have h1 : ∀ e ∈ l1, 0 ≤ e.values := fun e he => h e (List.mem_append_left _ he)
  have h2 : ∀ e ∈ l2, 0 ≤ e.values := fun e he => h e (List.mem_append_right _ he)
  have hsum : ((l1 ++ l2).map (fun e => e.values)).sum
      = (l1.map (fun e => e.values)).sum + (l2.map (fun e => e.values)).sum := by
    rw [List.map_append, List.sum_append]
  have hs1 : 0 ≤ (l1.map (fun e => e.values)).sum := by
    apply List.sum_nonneg
    intro x hx
    rcases List.mem_map.mp hx with ⟨e, he, rfl⟩
    exact h1 e he
  have hs2 : 0 ≤ (l2.map (fun e => e.values)).sum := by
    apply List.sum_nonneg
    intro x hx
    rcases List.mem_map.mp hx with ⟨e, he, rfl⟩
    exact h2 e he
  have hb1 : (l1.map (fun e => e.values)).sum < 2 ^ 63 := by linarith
  have hb2 : (l2.map (fun e => e.values)).sum < 2 ^ 63 := by linarith
  have hp : (0 : Int) < 2 ^ 63 := by norm_num
  have t12 : foldShardW (l1 ++ l2) = foldShard (l1 ++ l2) := foldShardW_eq (l1 ++ l2) h hb
  have t1 : foldShardW l1 = foldShard l1 := foldShardW_eq l1 h1 hb1
  have t2 : foldShardW l2 = foldShard l2 := foldShardW_eq l2 h2 hb2
  have tm : mergeGroupedW (foldShard l2) (foldShard l1)
      = mergeGrouped (foldShard l2) (foldShard l1) := by
    apply mergeGroupedW_eq (foldShard l2) (foldShard l1) (WFg_foldShard l2)
    intro d k
    rw [confirmedAt_foldShard, confirmedAt_foldShard,
      deathsAt_foldShard, deathsAt_foldShard]
    have c1 := specConf_nonneg h1 d k
    have c2 := specConf_nonneg h2 d k
    have b1 := specConf_le_valuesSum h1 d k
    have b2 := specConf_le_valuesSum h2 d k
    have e1 := specDeaths_nonneg h1 d k
    have e2 := specDeaths_nonneg h2 d k
    have f1 := specDeaths_le_valuesSum h1 d k
    have f2 := specDeaths_le_valuesSum h2 d k
    exact ⟨⟨by linarith, by linarith⟩, ⟨by linarith, by linarith⟩⟩
  refine ⟨t12, ?_, ?_, ?_, ?_⟩
  · intro d k
    rw [t12, confirmedAt_foldShard, deathsAt_foldShard]
    exact ⟨specConf_nonneg h d k, specDeaths_nonneg h d k⟩
  · intro d k
    rw [t1, t12, confirmedAt_foldShard, confirmedAt_foldShard,
      deathsAt_foldShard, deathsAt_foldShard, specConf_append, specDeaths_append]
    constructor
    · linarith [specConf_nonneg h2 d k]
    · linarith [specDeaths_nonneg h2 d k]
  · rw [t1, t2]
    exact tm
  · intro d k
    rw [t1, t2, tm,
      confirmedAt_mergeGrouped (foldShard l2) (foldShard l1) d k (WFg_foldShard l2),
      deathsAt_mergeGrouped (foldShard l2) (foldShard l1) d k (WFg_foldShard l2)]
    have n2 : 0 ≤ confirmedAt (foldShard l2) d k := by
      rw [confirmedAt_foldShard]
      exact specConf_nonneg h2 d k
    have n2d : 0 ≤ deathsAt (foldShard l2) d k := by
      rw [deathsAt_foldShard]
      exact specDeaths_nonneg h2 d k
    exact ⟨by linarith, by linarith⟩

/-- Witness for `C8_monotone_nonneg` at concrete bounded non-negative
inputs: one shard of value 3, one of value 2, same county. -/
theorem C8_monotone_nonneg_witness :
    (foldShardW ([(⟨0, "Alpha", "CA", 3, "Confirmed"⟩ : CovidCountyRawDataEntry)]
        ++ [⟨0, "Alpha", "CA", 2, "Confirmed"⟩])
      = foldShard ([⟨0, "Alpha", "CA", 3, "Confirmed"⟩]
        ++ [⟨0, "Alpha", "CA", 2, "Confirmed"⟩]))
    ∧ (0 ≤ confirmedAt (foldShardW ([(⟨0, "Alpha", "CA", 3, "Confirmed"⟩ :
          CovidCountyRawDataEntry)] ++ [⟨0, "Alpha", "CA", 2, "Confirmed"⟩]))
        0 "CA - Alpha")
    ∧ (confirmedAt (foldShardW
          [(⟨0, "Alpha", "CA", 3, "Confirmed"⟩ : CovidCountyRawDataEntry)]) 0 "CA - Alpha"
        ≤ confirmedAt (foldShardW ([(⟨0, "Alpha", "CA", 3, "Confirmed"⟩ :
            CovidCountyRawDataEntry)] ++ [⟨0, "Alpha", "CA", 2, "Confirmed"⟩]))
          0 "CA - Alpha")
    ∧ (confirmedAt (foldShardW
          [(⟨0, "Alpha", "CA", 3, "Confirmed"⟩ : CovidCountyRawDataEntry)]) 0 "CA - Alpha"
        ≤ confirmedAt (mergeGroupedW (foldShardW [⟨0, "Alpha", "CA", 2, "Confirmed"⟩])
            (foldShardW [⟨0, "Alpha", "CA", 3, "Confirmed"⟩])) 0 "CA - Alpha") :=
  ⟨(C8_monotone_nonneg [⟨0, "Alpha", "CA", 3, "Confirmed"⟩]
      [⟨0, "Alpha", "CA", 2, "Confirmed"⟩] (by decide) (by decide)).1,
    ((C8_monotone_nonneg [⟨0, "Alpha", "CA", 3, "Confirmed"⟩]
      [⟨0, "Alpha", "CA", 2, "Confirmed"⟩] (by decide) (by decide)).2.1 0 "CA - Alpha").1,
    ((C8_monotone_nonneg [⟨0, "Alpha", "CA", 3, "Confirmed"⟩]
      [⟨0, "Alpha", "CA", 2, "Confirmed"⟩] (by decide) (by decide)).2.2.1 0 "CA - Alpha").1,
    ((C8_monotone_nonneg [⟨0, "Alpha", "CA", 3, "Confirmed"⟩]
      [⟨0, "Alpha", "CA", 2, "Confirmed"⟩] (by decide) (by decide)).2.2.2.2
      0 "CA - Alpha").1⟩

/-- C9: the graph builder never hits a failure branch — the Option-explicit
build (state lookup `.expect(..)` and `add_metric`'s unwrap made visible)
always returns `some` of the total build, for every bucket; and an empty
bucket yields a Graph with an empty node list. -/
theorem C9_no_failure (date : Int) (b : DateBucket) :
    buildGraphOpt date b = some (buildGraph date b)
    ∧ (buildGraph date []).nodes = [] :=
  ⟨buildGraphOpt_eq date b, rfl⟩

/-- C10: every node of every built Graph — county or state — has a metrics
map whose key list is exactly ["confirmed", "deaths"], both always present. -/
theorem C10_metrics_keys (date : Int) (b : DateBucket) (n : Node)
    (h : n ∈ (buildGraph date b).nodes) :
    n.metrics.map (fun q => q.1) = ["confirmed", "deaths"] := by
  rw [buildGraph_nodes] at h
  rcases List.mem_append.mp h with h1 | h1
  · rcases List.mem_map.mp h1 with ⟨p, hp, rfl⟩
    rfl
  · rcases (mem_stateAcc_iff b n).mp h1 with ⟨s, hs, rfl⟩
    rfl

/-- Witness for `C10_metrics_keys` at a concrete node of a concrete graph. -/
theorem C10_metrics_keys_witness :
    (countyNodeOf ("CA - Alpha", (⟨"Alpha", "CA", 3, 1⟩ : CountyEntry))).metrics.map
        (fun q => q.1)
      = ["confirmed", "deaths"] :=
  C10_metrics_keys 0 [("CA - Alpha", ⟨"Alpha", "CA", 3, 1⟩)]
    (countyNodeOf ("CA - Alpha", ⟨"Alpha", "CA", 3, 1⟩)) (by decide)

end Claims

end CovidData
